import Mathlib

/-!
# Back-propagation (`lib/algorithms/back-propagation.js`)

A shallow embedding of `BackPropagation.prototype.run` and of the linear-algebra
operations it calls, followed by theorems about the derivatives it returns.

Numbers are exact rationals (`ℚ`): every operation of the example loop is an
addition, a subtraction or a multiplication, so finite inputs stay finite.  The
only division is `1 / this.examples.length`; its JavaScript value for a length of
zero is `Infinity`, so the entries of the returned matrices live in `JSNum`,
which adds the non-finite values to `ℚ`.

A method call on `null` or `undefined` raises a JavaScript `TypeError`; `run`
therefore returns `Except JSError`.
-/

namespace BackPropagation

/-! ## Values -/

/-- Errors a JavaScript call can end with.  `typeError` is what the runtime raises
when a property of `null` or `undefined` is read; `invalidArgument` is the error
kind the specification names. -/
inductive JSError where
  | typeError
  | invalidArgument
  deriving DecidableEq, Repr

/-- A JavaScript number under exact arithmetic: a finite rational or one of the
three non-finite values. -/
inductive JSNum where
  | fin (q : ℚ)
  | posInf
  | negInf
  | nan
  deriving DecidableEq

/-- The elements of a sylvester `Vector`. -/
abbrev Vec := List ℚ

/-- The elements of a sylvester `Matrix`, row by row. -/
abbrev Mat := List (List ℚ)

/-- A matrix whose entries may be non-finite (the returned derivatives). -/
abbrev JSMat := List (List JSNum)

/-- One entry of what `network.propagate` returns: the raw and the activated values
of a layer. -/
structure Record where
  raw : Vec
  values : Vec

instance : Inhabited Record := ⟨⟨[], []⟩⟩

/-- A training example `{input, output}`. -/
structure Example where
  input : Vec
  output : Vec

/-- The parts of the network object that `run` reads: `layers` (the unit count of
every layer), `weights` and the `propagate` method, which is a black box here. -/
structure Network where
  layers : List Nat
  weights : List Mat
  propagate : Vec → List Record

/-- The options object: `delta` is absent (`none`) or a list of seed matrices. -/
structure Options where
  delta : Option (List Mat)
  regularization : ℚ

/-- Reading a property of a value that may be `null` or `undefined`. -/
def deref {α : Type} : Option α → Except JSError α
  | some a => .ok a
  | none => .error .typeError

/-! ## JavaScript number arithmetic -/

/-- Sign of a rational as a non-finite value times a positive infinity:
`x * Infinity`. -/
def JSNum.timesInf (x : ℚ) : JSNum :=
  if x = 0 then .nan else if 0 < x then .posInf else .negInf

/-- Negation of a JavaScript number. -/
def JSNum.neg : JSNum → JSNum
  | .fin q => .fin (-q)
  | .posInf => .negInf
  | .negInf => .posInf
  | .nan => .nan

/-- JavaScript `*`. -/
def JSNum.mul : JSNum → JSNum → JSNum
  | .fin a, .fin b => .fin (a * b)
  | .fin a, .posInf => JSNum.timesInf a
  | .fin a, .negInf => (JSNum.timesInf a).neg
  | .posInf, .fin b => JSNum.timesInf b
  | .negInf, .fin b => (JSNum.timesInf b).neg
  | .posInf, .posInf => .posInf
  | .posInf, .negInf => .negInf
  | .negInf, .posInf => .negInf
  | .negInf, .negInf => .posInf
  | .nan, _ => .nan
  | _, .nan => .nan

/-- JavaScript `+`. -/
def JSNum.add : JSNum → JSNum → JSNum
  | .fin a, .fin b => .fin (a + b)
  | .fin _, .posInf => .posInf
  | .fin _, .negInf => .negInf
  | .posInf, .fin _ => .posInf
  | .negInf, .fin _ => .negInf
  | .posInf, .posInf => .posInf
  | .negInf, .negInf => .negInf
  | .posInf, .negInf => .nan
  | .negInf, .posInf => .nan
  | .nan, _ => .nan
  | _, .nan => .nan

/-- The value of `1 / n` for an array length `n`: `Infinity` when `n` is zero. -/
def recip (n : Nat) : JSNum :=
  if n = 0 then .posInf else .fin (1 / (n : ℚ))

/-! ## sylvester operations

The library is an external dependency; its operations are standard dense linear
algebra and return `null` (`none`) when the operand sizes do not fit. -/

/-- Modelled from the spec: sylvester `Vector.subtract` (element-wise vector
subtraction), `null` when the lengths differ. -/
def Vec.subtract (a v : Vec) : Option Vec :=
  if a.length = v.length then some (List.zipWith (fun x y => x - y) a v) else none

/-- Modelled from the spec: sylvester `Vector.elementMultiply`, which maps over the
receiver and multiplies by the element of `v` at the same index (an index `v` lacks
reads as `null`, which multiplies as zero). -/
def Vec.elementMultiply (a v : Vec) : Vec :=
  (List.range a.length).map (fun i => v.getD i 0 * a.getD i 0)

/-- Modelled from the spec: sylvester `Vector.transpose`, the one-column matrix of a
vector. -/
def Vec.transpose (v : Vec) : Mat := List.map (fun x => [x]) v

/-- Row count of a matrix (`elements.length`). -/
def Mat.rows (m : Mat) : Nat := m.length

/-- Column count of a matrix (`elements[0].length`; zero when there is no row). -/
def Mat.cols (m : Mat) : Nat := (m.headD []).length

/-- Modelled from the spec: sylvester `Matrix.transpose`. -/
def Mat.transpose (m : Mat) : Mat :=
  (List.range m.cols).map (fun c => List.map (fun row => row.getD c 0) m)

/-- Dot product of two number lists. -/
def dot (a b : Vec) : ℚ := (List.zipWith (fun x y => x * y) a b).sum

/-- Modelled from the spec: sylvester `Matrix.multiply` with a `Vector` argument:
`null` unless the column count equals the vector length, else the vector of row
products. -/
def Mat.multiplyVec (m : Mat) (v : Vec) : Option Vec :=
  if m.cols = v.length then some (List.map (fun row => dot row v) m) else none

/-- Modelled from the spec: sylvester `Matrix.multiply` with a `Matrix` argument:
`null` unless the receiver's column count equals the argument's row count. -/
def Mat.multiply (a b : Mat) : Option Mat :=
  if a.cols = b.rows then
    some (List.map (fun row => List.map (fun col => dot row col) b.transpose) a)
  else none

/-- Modelled from the spec: sylvester `Matrix.add`: `null` unless both matrices have
the same size, else the element-wise sum. -/
def Mat.add (a b : Mat) : Option Mat :=
  if a.rows = b.rows ∧ a.cols = b.cols then
    some (List.zipWith (fun r s => List.zipWith (fun x y => x + y) r s) a b)
  else none

/-- Modelled from the spec: sylvester `Matrix.map`, which calls the function with
the element and its 1-based row and column index. -/
def Mat.mapElements (m : Mat) (fn : ℚ → Nat → Nat → ℚ) : Mat :=
  List.mapIdx (fun i row => List.mapIdx (fun j x => fn x (i + 1) (j + 1)) row) m

/-- Modelled from the spec: sylvester `Matrix.multiply` with a number argument: every
element times the number. -/
def Mat.multiplyScalar (m : Mat) (k : JSNum) : JSMat :=
  List.map (fun row => List.map (fun x => JSNum.mul (.fin x) k) row) m

/-- Modelled from the spec: sylvester `Matrix.add` on a matrix of JavaScript
numbers. -/
def JSMat.add (a : JSMat) (b : Mat) : Option JSMat :=
  if a.length = b.length ∧ (a.headD []).length = (b.headD []).length then
    some (List.zipWith (fun r s => List.zipWith (fun x y => JSNum.add x (.fin y)) r s) a b)
  else none

/-! ## `utils` helpers -/

/-- Modelled from the spec: `utils.cloneWeights`, a deep copy of the seed
matrices. -/
def cloneWeights (ws : List Mat) : List Mat := ws

/-- Modelled from the spec: `utils.zeroWeights`, zero matrices shaped like the
weight matrices of a network with the given layer sizes (rows = units of the next
layer, columns = units of the previous layer plus one). -/
def zeroWeights : List Nat → List Mat
  | a :: b :: rest =>
      List.replicate b (List.replicate (a + 1) 0) :: zeroWeights (b :: rest)
  | _ => []

/-- Modelled from the spec: `utils.addBiasUnit`, which prepends a constant 1. -/
def addBiasUnit (v : Vec) : Vec := 1 :: v

/-- Modelled from the spec: `utils.toMatrix`, the one-row matrix of a vector. -/
def toMatrix (v : Vec) : Mat := [v]

/-! ## `BackPropagation.prototype.run` -/

/-- The closure `trimWeights`: `x.slice(1)`. -/
def trimWeights (x : List ℚ) : List ℚ := x.drop 1

/-- The closure `applyRegularization` (bound to the options). -/
def applyRegularization (options : Options) (x : ℚ) (_row column : Nat) : ℚ :=
  if column = 1 then 0 else x * options.regularization

/-- Line 105: `output[output.length - 1].values.subtract(expectedOutput)`.  A `null`
difference is dereferenced by the first statement that uses it (line 114 or
line 126), which raises the `TypeError` raised here. -/
def outputError (output : List Record) (expectedOutput : Vec) : Except JSError Vec := do
  let last ← deref output.getLast?
  deref (Vec.subtract last.values expectedOutput)

/-- Lines 108-119: the loop `for (j = ...; j > 0; j--)`, entered with the current
value of `j` and the errors pushed so far. -/
def backwardLoop (sigmoidDerivative : ℚ → ℚ) (net : Network) (output : List Record) :
    Nat → List Vec → Except JSError (List Vec)
  | 0, errors => .ok errors
  | j + 1, errors => do
      let w ← deref (net.weights[j + 1]?)
      let weights : Mat := List.map trimWeights w
      let previous ← deref errors.getLast?
      let product ← deref (weights.transpose.multiplyVec previous)
      let layer ← deref (output[j + 1]?)
      let error := Vec.elementMultiply product (List.map sigmoidDerivative layer.raw)
      backwardLoop sigmoidDerivative net output j (errors ++ [error])

/-- Lines 124-129: the loop over `errors`, entered at index `j` with the errors
from index `j` on. -/
def accumulate (output : List Record) :
    Nat → List Vec → List (Option Mat) → Except JSError (List (Option Mat))
  | _, [], delta => .ok delta
  | j, error :: rest, delta => do
      let layer ← deref (output[j]?)
      let biasedOutput := toMatrix (addBiasUnit layer.values)
      let newDelta := (Vec.transpose error).multiply biasedOutput
      let current ← deref (delta[j]?).join
      let added ← deref newDelta
      accumulate output (j + 1) rest (delta.set j (current.add added))

/-- Lines 98-129: the body of the loop over the examples. -/
def exampleStep (sigmoidDerivative : ℚ → ℚ) (net : Network)
    (delta : List (Option Mat)) (example_ : Example) :
    Except JSError (List (Option Mat)) := do
  let output := net.propagate example_.input
  let first ← outputError output example_.output
  let errors ← backwardLoop sigmoidDerivative net output (output.length - 2) [first]
  accumulate output 0 errors.reverse delta

/-- Lines 97-130: the loop over the examples. -/
def exampleLoop (sigmoidDerivative : ℚ → ℚ) (net : Network) :
    List Example → List (Option Mat) → Except JSError (List (Option Mat))
  | [], delta => .ok delta
  | e :: rest, delta => do
      let next ← exampleStep sigmoidDerivative net delta e
      exampleLoop sigmoidDerivative net rest next

/-- Lines 136-140: the regularization step.  The sum `derivative.add(regularization)`
is computed and dropped; the step can only raise (when `weights[i]` is
undefined). -/
def regularizationStep (net : Network) (options : Options) (i : Nat)
    (derivative : JSMat) : Except JSError Unit :=
  if options.regularization ≠ 0 then do
    let w ← deref (net.weights[i]?)
    let regularization := w.mapElements (applyRegularization options)
    let _sum := derivative.add regularization
    pure ()
  else pure ()

/-- Lines 133-143: the loop over `delta`, entered at index `i` with the
accumulators from index `i` on; `n` is `this.examples.length`. -/
def derivativeLoop (net : Network) (options : Options) (n : Nat) :
    Nat → List (Option Mat) → Except JSError (List JSMat)
  | _, [] => .ok []
  | i, d :: rest => do
      let current ← deref d
      let derivative := current.multiplyScalar (recip n)
      regularizationStep net options i derivative
      let others ← derivativeLoop net options n (i + 1) rest
      pure (derivative :: others)

/-- Lines 80-82: the initial accumulator. -/
def initialDelta (net : Network) (options : Options) : List Mat :=
  match options.delta with
  | some d => cloneWeights d
  | none => zeroWeights net.layers

/-- The method `BackPropagation.prototype.run`. -/
def run (sigmoidDerivative : ℚ → ℚ) (net : Network) (examples : List Example)
    (options : Options) : Except JSError (List JSMat) := do
  let delta ← exampleLoop sigmoidDerivative net examples
    ((initialDelta net options).map some)
  derivativeLoop net options examples.length 0 delta

/-! ## Well-shaped inputs -/

/-- A matrix with `r` rows that all have `c` entries. -/
def Mat.hasShape (m : Mat) (r c : Nat) : Prop :=
  m.length = r ∧ ∀ row ∈ m, row.length = c

instance (m : Mat) (r c : Nat) : Decidable (m.hasShape r c) := by
  unfold Mat.hasShape; infer_instance

/-- One matrix per pair of adjacent layers, matrix `j` with as many rows as layer
`j + 1` has units and one column more than layer `j` has units. -/
def Shaped (layers : List Nat) (ms : List Mat) : Prop :=
  ms.length + 1 = layers.length ∧
  ∀ j, j < ms.length → (ms.getD j []).hasShape (layers.getD (j + 1) 0) (layers.getD j 0 + 1)

instance (layers : List Nat) (ms : List Mat) : Decidable (Shaped layers ms) := by
  unfold Shaped; infer_instance

/-- The shape invariant of a network: at least two layers, every layer with at least
one unit, and weight matrices shaped after the layers. -/
def WellShaped (net : Network) : Prop :=
  2 ≤ net.layers.length ∧ (∀ n ∈ net.layers, 0 < n) ∧ Shaped net.layers net.weights

instance (net : Network) : Decidable (WellShaped net) := by
  unfold WellShaped; infer_instance

/-- An example fits a network when `propagate` returns one record per layer, with
as many raw and activated values as the layer has units, and the expected output
has as many entries as the last layer has units. -/
def ExampleFits (net : Network) (e : Example) : Prop :=
  (net.propagate e.input).length = net.layers.length ∧
  (∀ j, j < net.layers.length →
    ((net.propagate e.input).getD j default).raw.length = net.layers.getD j 0 ∧
    ((net.propagate e.input).getD j default).values.length = net.layers.getD j 0) ∧
  e.output.length = net.layers.getD (net.layers.length - 1) 0

instance (net : Network) (e : Example) : Decidable (ExampleFits net e) := by
  unfold ExampleFits; infer_instance

/-- No seed, or seed matrices with the shapes of the weight matrices. -/
def SeedFits (net : Network) (options : Options) : Prop :=
  match options.delta with
  | none => True
  | some d => Shaped net.layers d

instance (net : Network) (options : Options) : Decidable (SeedFits net options) := by
  unfold SeedFits; cases options.delta <;> infer_instance

/-! ## The derivatives in closed form -/

/-- Entry `(r, c)` of matrix `j` of a list of matrices (0-based). -/
def entry (ms : List Mat) (j r c : Nat) : ℚ := ((ms.getD j []).getD r []).getD c 0

/-- The outer product: `outer d b` has the entry `d[r] * b[c]` at `(r, c)`. -/
def outer (d b : Vec) : Mat := List.map (fun x => List.map (fun y => x * y) b) d

/-- The hidden-layer recurrence: entry `c` of the error of a layer is the sum over
the units `r` of the next layer of `w[r][c + 1] * next[r]` (the transpose of the
weights without their first column, times the next error), times the activation
derivative at the layer's raw value `c`. -/
def hiddenError (sigmoidDerivative : ℚ → ℚ) (w : Mat) (raw next : Vec) : Vec :=
  (List.range raw.length).map (fun c =>
    ((List.range next.length).map (fun r => (w.getD r []).getD (c + 1) 0 * next.getD r 0)).sum
      * sigmoidDerivative (raw.getD c 0))

/-- The error of the layer `k` layers before the last one: the activated output
minus the expected output for `k = 0`, the hidden-layer recurrence above it. -/
def errorBack (sigmoidDerivative : ℚ → ℚ) (net : Network) (output : List Record)
    (expectedOutput : Vec) : Nat → Vec
  | 0 => List.zipWith (fun x y => x - y) (output.getLastD default).values expectedOutput
  | k + 1 =>
      hiddenError sigmoidDerivative (net.weights.getD (output.length - 2 - k) [])
        (output.getD (output.length - 2 - k) default).raw
        (errorBack sigmoidDerivative net output expectedOutput k)

/-- The error `d_j` of layer `j` (0-based; `output.length - 1` is the last layer). -/
def layerError (sigmoidDerivative : ℚ → ℚ) (net : Network) (output : List Record)
    (expectedOutput : Vec) (j : Nat) : Vec :=
  errorBack sigmoidDerivative net output expectedOutput (output.length - 1 - j)

/-- The outer products of the errors `errors[i]` with the bias-augmented activated
values of layer `j + i`. -/
def gradsFrom (output : List Record) : Nat → List Vec → List Mat
  | _, [] => []
  | j, e :: rest =>
      outer e (1 :: (output.getD j default).values) :: gradsFrom output (j + 1) rest

/-- The gradient of one example: for every weight matrix `j` the outer product of
`d_(j+1)` with `[1; a_j]`. -/
def exampleGradient (sigmoidDerivative : ℚ → ℚ) (net : Network) (e : Example) : List Mat :=
  gradsFrom (net.propagate e.input) 0
    ((List.range ((net.propagate e.input).length - 1)).map
      (fun j => layerError sigmoidDerivative net (net.propagate e.input) e.output (j + 1)))

/-- Element-wise sum of two matrices. -/
def matAdd (a b : Mat) : Mat :=
  List.zipWith (fun r s => List.zipWith (fun x y => x + y) r s) a b

/-- Element-wise sum of two lists of matrices. -/
def matsAdd (a b : List Mat) : List Mat := List.zipWith matAdd a b

/-- The seed plus the gradients of all examples. -/
def totalDelta (sigmoidDerivative : ℚ → ℚ) (net : Network) (examples : List Example)
    (seed : List Mat) : List Mat :=
  examples.foldl (fun acc e => matsAdd acc (exampleGradient sigmoidDerivative net e)) seed

/-- A matrix with every entry multiplied by the rational `k`. -/
def scaleMat (k : ℚ) (m : Mat) : Mat :=
  List.map (fun row => List.map (fun x => x * k) row) m

/-- A rational matrix as a matrix of finite JavaScript numbers. -/
def finMat (m : Mat) : JSMat :=
  List.map (fun row => List.map JSNum.fin row) m

/-! ## A failure-free reading of the example loop

The example loop either ends in a `TypeError` or adds, for every example, the
matrices `newDelta` of that example into the accumulator.  The definitions below
compute the same without `null`: `none` stands for a run that ends in a
`TypeError`, whether it is raised at once or at a later dereference of a `null`
accumulator matrix. -/

/-- Lines 105-122 for one example: the errors in forward order.  They do not depend
on the accumulator. -/
def exampleErrors (sigmoidDerivative : ℚ → ℚ) (net : Network) (e : Example) :
    Except JSError (List Vec) := do
  let output := net.propagate e.input
  let first ← outputError output e.output
  let errors ← backwardLoop sigmoidDerivative net output (output.length - 2) [first]
  pure errors.reverse

/-- Lines 125-126 for the errors from index `j` on: the matrices `newDelta`, `none`
where `output[j]` is undefined or the product is `null`. -/
def newDeltas (output : List Record) : Nat → List Vec → List (Option Mat)
  | _, [] => []
  | j, error :: rest =>
      ((output[j]?).bind (fun layer =>
          (Vec.transpose error).multiply (toMatrix (addBiasUnit layer.values))))
        :: newDeltas output (j + 1) rest

/-- Adding the matrices `newDelta` into the first accumulator matrices; `none` when an
accumulator matrix is missing, a `newDelta` is `null` or a sum is `null`. -/
def addInto : List (Option Mat) → List Mat → Option (List Mat)
  | [], d => some d
  | some g :: gs, m :: d =>
      match Mat.add m g with
      | some s => (addInto gs d).map (fun t => s :: t)
      | none => none
  | _, _ => none

/-- One example on an accumulator without `null`. -/
def stepPure (sigmoidDerivative : ℚ → ℚ) (net : Network) (s : Option (List Mat))
    (e : Example) : Option (List Mat) :=
  match s with
  | none => none
  | some d =>
      match exampleErrors sigmoidDerivative net e with
      | .error _ => none
      | .ok errors => addInto (newDeltas (net.propagate e.input) 0 errors) d

/-- The loop over `delta` on an accumulator without `null`. -/
def finishPure (net : Network) (options : Options) (n : Nat) :
    Option (List Mat) → Except JSError (List JSMat)
  | none => .error .typeError
  | some d => derivativeLoop net options n 0 (d.map some)

/-- A result that is a value or a `TypeError`. -/
def OnlyTypeError {α : Type} (x : Except JSError α) : Prop :=
  ∀ err, x = .error err → err = .typeError

/-- An accumulator of `run` and its reading without `null`: either the accumulator
has no `null` and is the reading, or it has a `null` and the reading is `none`. -/
def Sim (delta : List (Option Mat)) (s : Option (List Mat)) : Prop :=
  match s with
  | some d => delta = d.map some
  | none => none ∈ delta

/-! ## The scenario of the specification

A network with two input units and one output unit, the weight matrix
`[[0.1, 0.2, 0.3]]` and the example `{input: [1, 1], output: [0]}`.  The
propagation is a black box: it returns the input as the first record and a raw
value `z` and an activated value `a` for the output unit. -/

/-- The network of the scenario. -/
def scenarioNet (z a : ℚ) : Network :=
  { layers := [2, 1]
    weights := [[[1 / 10, 2 / 10, 3 / 10]]]
    propagate := fun x => [⟨x, x⟩, ⟨[z], [a]⟩] }

/-- An activation derivative for the scenario (it has no hidden layer, so the
function is never applied). -/
def scenarioDerivative : ℚ → ℚ := fun x => x * (1 - x)

/-- The example list of the scenario. -/
def scenarioExamples : List Example := [⟨[1, 1], [0]⟩]

/-- A network with three layers (2, 2 and 1 units) whose propagation returns fixed
records. -/
def hiddenNet : Network :=
  { layers := [2, 2, 1]
    weights := [[[1, 2, 3], [4, 5, 6]], [[1 / 2, 1 / 3, 1 / 4]]]
    propagate := fun x => [⟨x, x⟩, ⟨[1, 2], [1 / 2, 1 / 3]⟩, ⟨[3], [3 / 4]⟩] }

/-! ## `run` without the regularization step -/

/-- Lines 133-143 with the regularization step (lines 136-140) removed: every
accumulator matrix is scaled by `1 / n` and pushed. -/
def derivativeLoopSkip (n : Nat) : List (Option Mat) → Except JSError (List JSMat)
  | [] => .ok []
  | d :: rest => do
      let current ← deref d
      let derivative := current.multiplyScalar (recip n)
      let others ← derivativeLoopSkip n rest
      pure (derivative :: others)

/-- The method `run` with the regularization step removed. -/
def runSkip (sigmoidDerivative : ℚ → ℚ) (net : Network) (examples : List Example)
    (seed : Option (List Mat)) : Except JSError (List JSMat) := do
  let delta ← exampleLoop sigmoidDerivative net examples
    ((initialDelta net ⟨seed, 0⟩).map some)
  derivativeLoopSkip examples.length delta

/-! ## Further networks for concrete runs -/

/-- A network with one layer of two units and no weight matrix; its propagation
returns a single record. -/
def singleLayerNet : Network :=
  { layers := [2]
    weights := []
    propagate := fun x => [⟨x, x⟩] }

/-- The scenario's network with a propagation whose first record has one value
instead of two, so that the records do not fit the weight matrix. -/
def misfitNet (z a : ℚ) : Network :=
  { layers := [2, 1]
    weights := [[[1 / 10, 2 / 10, 3 / 10]]]
    propagate := fun _ => [⟨[1], [1]⟩, ⟨[z], [a]⟩] }

/-! ## `run` on a store

The objects `run` can reach, as a state that every statement passes on: the array
objects that hold accumulator matrices, addressed by their position (the caller's
`options.delta` is one of them, `run` allocates another one for `delta`), the
weight matrices of the network and the examples.  A matrix is a value: no sylvester
operation the method calls changes its receiver or its argument. -/

/-- The state of the reachable objects. -/
structure Store where
  arrays : List (List (Option Mat))
  weights : List Mat
  examples : List Example

/-- A new array object; its address is the number of arrays allocated before. -/
def Store.allocate (s : Store) (a : List (Option Mat)) : Store × Nat :=
  ({ s with arrays := s.arrays ++ [a] }, s.arrays.length)

/-- The array object at an address. -/
def Store.array (s : Store) (ref : Nat) : List (Option Mat) := s.arrays.getD ref []

/-- The store with the array at address `ref` replaced. -/
def Store.put (s : Store) (ref : Nat) (a : List (Option Mat)) : Store :=
  { s with arrays := s.arrays.set ref a }

/-- The assignment `delta[j] = v` on the array at address `ref` (line 128 assigns only
to an index that holds a matrix, so the array never grows). -/
def Store.assign (s : Store) (ref j : Nat) (v : Option Mat) : Store :=
  s.put ref ((s.array ref).set j v)

/-- The network object over the weights held in the store. -/
def Store.network (s : Store) (layers : List Nat) (propagate : Vec → List Record) :
    Network :=
  { layers := layers, weights := s.weights, propagate := propagate }

/-- Lines 124-129 on the store: the loop over `errors`, writing `delta[j]` of the array
at address `ref`. -/
def accumulateOn (output : List Record) (ref : Nat) :
    Nat → List Vec → Store → Except JSError Unit × Store
  | _, [], s => (.ok (), s)
  | j, error :: rest, s =>
      match output[j]? with
      | none => (.error .typeError, s)
      | some layer =>
          match ((s.array ref)[j]?).join,
            (Vec.transpose error).multiply (toMatrix (addBiasUnit layer.values)) with
          | some current, some added =>
              accumulateOn output ref (j + 1) rest (s.assign ref j (current.add added))
          | _, _ => (.error .typeError, s)

/-- Lines 98-129 on the store: one example.  The errors are computed from the weights
in the store and written nowhere but to the local array `errors`. -/
def exampleStepOn (sigmoidDerivative : ℚ → ℚ) (layers : List Nat)
    (propagate : Vec → List Record) (ref : Nat) (s : Store) (e : Example) :
    Except JSError Unit × Store :=
  match exampleErrors sigmoidDerivative (s.network layers propagate) e with
  | .error err => (.error err, s)
  | .ok errors => accumulateOn (propagate e.input) ref 0 errors s

/-- Lines 97-130 on the store: the loop `for (i = 0, l = this.examples.length; i < l;
i++)`, entered with `l - i` iterations left; `this.examples[i]` is read from the
store in every iteration. -/
def exampleLoopOn (sigmoidDerivative : ℚ → ℚ) (layers : List Nat)
    (propagate : Vec → List Record) (ref : Nat) :
    Nat → Nat → Store → Except JSError Unit × Store
  | 0, _, s => (.ok (), s)
  | left + 1, i, s =>
      match s.examples[i]? with
      | none => (.error .typeError, s)
      | some e =>
          match exampleStepOn sigmoidDerivative layers propagate ref s e with
          | (.error err, s1) => (.error err, s1)
          | (.ok _, s1) =>
              exampleLoopOn sigmoidDerivative layers propagate ref left (i + 1) s1

/-- Lines 80-82 on the store: the content of the new array `delta`, a copy of the
array `options.delta` at address `a` (`utils.cloneWeights`, a deep copy) or zero
matrices (`utils.zeroWeights`). -/
def Store.initialArray (s : Store) (layers : List Nat) : Option Nat → List (Option Mat)
  | some a => s.array a
  | none => (zeroWeights layers).map some

/-- The method `run` on the store.  `seed` is the address of the array
`options.delta` when the option is present.  The array `delta` is newly allocated;
the loop over `delta` reads it and writes only to the local array `derivatives`. -/
def runOn (sigmoidDerivative : ℚ → ℚ) (layers : List Nat)
    (propagate : Vec → List Record) (seed : Option Nat) (regularization : ℚ)
    (s : Store) : Except JSError (List JSMat) × Store :=
  let s1 := (s.allocate (s.initialArray layers seed)).1
  let ref := (s.allocate (s.initialArray layers seed)).2
  match exampleLoopOn sigmoidDerivative layers propagate ref s1.examples.length 0 s1 with
  | (.error err, s2) => (.error err, s2)
  | (.ok _, s2) =>
      (derivativeLoop (s2.network layers propagate) ⟨none, regularization⟩
        s2.examples.length 0 (s2.array ref), s2)

/-- The seed matrices held in the array `options.delta` of the store. -/
def Store.seedValue (s : Store) (seed : Option Nat) : Option (List Mat) :=
  seed.map (fun a => (s.array a).filterMap id)

/-- A store for the scenario: the caller's seed array `[[[1, 2, 3]]]` at address 0,
the weight matrix and the example of the scenario. -/
def scenarioStore : Store :=
  { arrays := [[some [[1, 2, 3]]]]
    weights := [[[1 / 10, 2 / 10, 3 / 10]]]
    examples := [⟨[1, 1], [0]⟩] }

/-! ## Linear-algebra lemmas -/

theorem dot_eq_sum (a b : Vec) (h : a.length = b.length) :
    dot a b = ((List.range b.length).map (fun r => a.getD r 0 * b.getD r 0)).sum := by
  induction a generalizing b with
  | nil =>
    cases b with
    | nil => simp [dot]
    | cons y b => simp at h
  | cons x a ih =>
    cases b with
    | nil => simp at h
    | cons y b =>
      have h2 : a.length = b.length := by simpa using h
      have := ih b h2
      simp only [dot] at this
      simp [dot, List.range_succ_eq_map, this, Function.comp_def]

theorem hasShape_cols {m : Mat} {r c : Nat} (h : m.hasShape r c) (hr : 0 < r) :
    m.cols = c := by
  obtain ⟨h1, h2⟩ := h
  cases m with
  | nil => simp at h1; omega
  | cons x m => simpa [Mat.cols] using h2 x (by simp)

theorem hasShape_getD {m : Mat} {r c i : Nat} (h : m.hasShape r c) (hi : i < r) :
    (m.getD i []).length = c := by
  obtain ⟨h1, h2⟩ := h
  have hi2 : i < m.length := by omega
  rw [List.getD_eq_getElem _ _ hi2]
  exact h2 _ (List.getElem_mem _)

theorem hidden_ok (sd : ℚ → ℚ) (w : Mat) (raw prev : Vec) (p q : Nat)
    (hw : w.hasShape p (q + 1)) (hp : 0 < p) (hq : 0 < q)
    (hprev : prev.length = p) (hraw : raw.length = q) :
    ∃ product, (Mat.transpose (List.map trimWeights w)).multiplyVec prev = some product ∧
      Vec.elementMultiply product (List.map sd raw) = hiddenError sd w raw prev := by
  have hcols : Mat.cols (List.map trimWeights w) = q := by
    obtain ⟨h1, h2⟩ := hw
    cases w with
    | nil => simp at h1; omega
    | cons x w =>
      have := h2 x (by simp)
      simp [Mat.cols, trimWeights, this]
  have hcols2 : Mat.cols (Mat.transpose (List.map trimWeights w)) = p := by
    unfold Mat.transpose
    rw [hcols]
    obtain ⟨k, rfl⟩ : ∃ k, q = k + 1 := ⟨q - 1, by omega⟩
    simp [Mat.cols, List.range_succ_eq_map, hw.1]
  refine ⟨List.map (fun row => dot row prev) (Mat.transpose (List.map trimWeights w)), ?_, ?_⟩
  · unfold Mat.multiplyVec
    rw [if_pos (by rw [hcols2, hprev])]
  · unfold Vec.elementMultiply hiddenError Mat.transpose
    simp only [List.length_map, List.length_range, hcols, hraw]
    apply List.map_congr_left
    intro c hc
    have hc2 : c < q := by simpa using hc
    rw [mul_comm]
    congr 1
    · rw [List.getD_eq_getElem _ _ (by simp [hcols]; exact hc2)]
      simp only [List.getElem_map, List.getElem_range]
      rw [dot_eq_sum _ _ (by simp [hw.1, hprev])]
      congr 1
      apply List.map_congr_left
      intro r hr
      have hr2 : r < w.length := by rw [hw.1, ← hprev]; simpa using hr
      congr 1
      rw [List.getD_eq_getElem _ _ (by simpa using hr2)]
      simp only [List.getElem_map, trimWeights]
      rw [List.getD_eq_getElem _ _ hr2]
      simp [List.getD_eq_getElem?_getD, List.getElem?_drop, Nat.add_comm]
    · rw [List.getD_eq_getElem _ _ (by simp [hraw]; exact hc2)]
      simp only [List.getElem_map]
      rw [List.getD_eq_getElem _ _ (by omega)]

theorem getElem?_eq_some_getD {α : Type} (l : List α) (i : Nat) (h : i < l.length) (d : α) :
    l[i]? = some (l.getD i d) := by
  rw [List.getElem?_eq_getElem h, List.getD_eq_getElem _ _ h]

theorem getLast?_eq_some_getD {α : Type} (l : List α) (h : 0 < l.length) (d : α) :
    l.getLast? = some (l.getD (l.length - 1) d) := by
  rw [List.getLast?_eq_getElem?]
  exact getElem?_eq_some_getD l _ (by omega) d

theorem getLastD_eq_getD {α : Type} (l : List α) (h : 0 < l.length) (d : α) :
    l.getLastD d = l.getD (l.length - 1) d := by
  rw [List.getLastD_eq_getLast?, getLast?_eq_some_getD l h d]; rfl

theorem layers_pos {net : Network} (hn : WellShaped net) (i : Nat)
    (hi : i < net.layers.length) : 0 < net.layers.getD i 0 := by
  rw [List.getD_eq_getElem _ _ hi]
  exact hn.2.1 _ (List.getElem_mem _)

theorem errorBack_length (sd : ℚ → ℚ) {net : Network} {e : Example}
    (he : ExampleFits net e) (k : Nat) (hk : k + 1 ≤ net.layers.length) :
    (errorBack sd net (net.propagate e.input) e.output k).length
      = net.layers.getD (net.layers.length - 1 - k) 0 := by
  obtain ⟨h1, h2, h3⟩ := he
  cases k with
  | zero =>
    simp only [errorBack, List.length_zipWith]
    rw [getLastD_eq_getD _ (by omega), h1, (h2 _ (by omega)).2, h3]
    simp
  | succ k =>
    simp only [errorBack, hiddenError, List.length_map, List.length_range]
    rw [h1, (h2 _ (by omega)).1]
    congr 1
    omega

theorem backward_ok (sd : ℚ → ℚ) {net : Network} {e : Example}
    (hn : WellShaped net) (he : ExampleFits net e) :
    ∀ j k, j + k + 1 = net.layers.length → 1 ≤ k →
      backwardLoop sd net (net.propagate e.input) j
          ((List.range k).map (errorBack sd net (net.propagate e.input) e.output))
        = .ok ((List.range (net.layers.length - 1)).map
            (errorBack sd net (net.propagate e.input) e.output)) := by
  intro j
  induction j with
  | zero =>
    intro k hk _
    have : net.layers.length - 1 = k := by omega
    simp [backwardLoop, this]
  | succ j ih =>
    intro k hk hk1
    obtain ⟨k, rfl⟩ : ∃ i, k = i + 1 := ⟨k - 1, by omega⟩
    have hlen := he.1
    have hws := hn.2.2
    have hw : net.weights[j + 1]? = some (net.weights.getD (j + 1) []) :=
      getElem?_eq_some_getD _ _ (by have := hws.1; omega) _
    have ho : (net.propagate e.input)[j + 1]? = some ((net.propagate e.input).getD (j + 1) default) :=
      getElem?_eq_some_getD _ _ (by omega) _
    have hlast : ((List.range (k + 1)).map
        (errorBack sd net (net.propagate e.input) e.output)).getLast?
          = some (errorBack sd net (net.propagate e.input) e.output k) := by
      simp [List.range_succ]
    have hidx : (net.propagate e.input).length - 2 - k = j + 1 := by omega
    obtain ⟨product, hp1, hp2⟩ := hidden_ok sd (net.weights.getD (j + 1) [])
      ((net.propagate e.input).getD (j + 1) default).raw
      (errorBack sd net (net.propagate e.input) e.output k)
      (net.layers.getD (j + 2) 0) (net.layers.getD (j + 1) 0)
      (hws.2 (j + 1) (by have := hws.1; omega))
      (layers_pos hn _ (by omega)) (layers_pos hn _ (by omega))
      (by rw [errorBack_length sd he k (by omega)]; congr 1; omega)
      ((he.2.1 (j + 1) (by omega)).1)
    have hnext : (List.range (k + 1)).map (errorBack sd net (net.propagate e.input) e.output)
        ++ [hiddenError sd (net.weights.getD (j + 1) [])
              ((net.propagate e.input).getD (j + 1) default).raw
              (errorBack sd net (net.propagate e.input) e.output k)]
        = (List.range (k + 1 + 1)).map (errorBack sd net (net.propagate e.input) e.output) := by
      rw [List.range_succ (n := k + 1), List.map_append]
      simp only [List.map_cons, List.map_nil, errorBack, hidx]
    simp only [backwardLoop, hw, hlast, hp1, ho, deref, bind, Except.bind, hp2, hnext]
    exact ih (k + 1 + 1) (by omega) (by omega)

theorem range_map_getD {α β : Type} (l : List α) (d : α) (f : α → β) :
    (List.range l.length).map (fun c => f (l.getD c d)) = l.map f := by
  apply List.ext_getElem
  · simp
  · intro n h1 h2
    have hn : n < l.length := by simpa using h2
    simp [List.getElem?_eq_getElem hn]

theorem outer_multiply (err b : Vec) (h : err ≠ []) :
    (Vec.transpose err).multiply (toMatrix b) = some (outer err b) := by
  cases err with
  | nil => exact absurd rfl h
  | cons x xs =>
    have hc : Mat.cols (Vec.transpose (x :: xs)) = Mat.rows (toMatrix b) := by
      simp [Mat.cols, Mat.rows, Vec.transpose, toMatrix]
    unfold Mat.multiply
    rw [if_pos hc]
    congr 1
    unfold Vec.transpose outer
    rw [List.map_map]
    apply List.map_congr_left
    intro y _
    have : Mat.transpose (toMatrix b) = (List.range b.length).map (fun c => [b.getD c 0]) := by
      simp [Mat.transpose, toMatrix, Mat.cols]
    rw [Function.comp_apply, this, List.map_map, ← range_map_getD b 0 (fun z => y * z)]
    apply List.map_congr_left
    intro c _
    simp [dot]

theorem outer_hasShape (d b : Vec) : (outer d b).hasShape d.length b.length := by
  constructor
  · simp [outer]
  · intro row hrow
    simp only [outer, List.mem_map] at hrow
    obtain ⟨x, _, rfl⟩ := hrow
    simp

theorem add_ok (d g : Mat) (r c : Nat) (hd : d.hasShape r c) (hg : g.hasShape r c) :
    Mat.add d g = some (matAdd d g) := by
  unfold Mat.add
  have h1 : d.rows = g.rows := by rw [Mat.rows, Mat.rows, hd.1, hg.1]
  have h2 : d.cols = g.cols := by
    rcases Nat.eq_zero_or_pos r with h0 | hpos
    · have hd0 : d = [] := List.length_eq_zero.mp (by rw [hd.1, h0])
      have hg0 : g = [] := List.length_eq_zero.mp (by rw [hg.1, h0])
      rw [hd0, hg0]
    · rw [hasShape_cols hd hpos, hasShape_cols hg hpos]
  rw [if_pos ⟨h1, h2⟩]; rfl

theorem matAdd_hasShape : ∀ (d g : Mat) (r c : Nat), d.hasShape r c → g.hasShape r c →
    (matAdd d g).hasShape r c := by
  intro d
  induction d with
  | nil =>
    intro g r c hd _
    exact ⟨by simpa [matAdd] using hd.1, by simp [matAdd]⟩
  | cons x d ih =>
    intro g r c hd hg
    cases g with
    | nil =>
      have h1 := hd.1
      have h2 := hg.1
      simp at h1 h2
      omega
    | cons y g =>
      have hd1 := hd.1
      have hg1 := hg.1
      simp only [List.length_cons] at hd1 hg1
      have hd2 : Mat.hasShape d (r - 1) c :=
        ⟨by omega, fun row hrow => hd.2 row (List.mem_cons_of_mem _ hrow)⟩
      have hg2 : Mat.hasShape g (r - 1) c :=
        ⟨by omega, fun row hrow => hg.2 row (List.mem_cons_of_mem _ hrow)⟩
      have := ih g (r - 1) c hd2 hg2
      constructor
      · simp only [matAdd, List.zipWith_cons_cons, List.length_cons]
        have h3 := this.1
        simp only [matAdd] at h3
        omega
      · intro row hrow
        simp only [matAdd, List.zipWith_cons_cons, List.mem_cons] at hrow
        rcases hrow with rfl | hrow
        · simp [hd.2 x (by simp), hg.2 y (by simp)]
        · exact this.2 row hrow

theorem getElem?_append_cons {α : Type} (pre : List α) (x : α) (post : List α) :
    (pre ++ x :: post)[pre.length]? = some x := by
  induction pre with
  | nil => simp
  | cons a pre ih => simpa using ih

theorem accumulate_ok (output : List Record) :
    ∀ (errs : List Vec) (j : Nat) (pre post : List Mat), pre.length = j →
      post.length = errs.length →
      (∀ i, i < errs.length → j + i < output.length ∧ errs.getD i [] ≠ [] ∧
        (post.getD i []).hasShape (errs.getD i []).length
          ((output.getD (j + i) default).values.length + 1)) →
      accumulate output j errs ((pre ++ post).map some)
        = .ok ((pre ++ matsAdd post (gradsFrom output j errs)).map some) := by
  intro errs
  induction errs with
  | nil =>
    intro j pre post _ hpost _
    have : post = [] := List.length_eq_zero.mp (by simpa using hpost)
    simp [accumulate, gradsFrom, matsAdd, this]
  | cons e rest ih =>
    intro j pre post hpre hpost hall
    cases post with
    | nil => simp at hpost
    | cons d post =>
      obtain ⟨h0a, h0b, h0c⟩ := hall 0 (by simp)
      simp only [List.getD_cons_zero, Nat.add_zero] at h0a h0b h0c
      have ho : output[j]? = some (output.getD j default) :=
        getElem?_eq_some_getD _ _ h0a _
      have hd : ((pre ++ d :: post).map some)[j]? = some (some d) := by
        rw [List.map_append, List.map_cons, ← hpre]
        have := getElem?_append_cons (pre.map some) (some d) (post.map some)
        simpa using this
      have hadd := add_ok d (outer e (1 :: (output.getD j default).values)) _ _ h0c
        (by simpa using outer_hasShape e (1 :: (output.getD j default).values))
      have hset : ((pre ++ d :: post).map some).set j
            (some (matAdd d (outer e (1 :: (output.getD j default).values))))
          = ((pre ++ [matAdd d (outer e (1 :: (output.getD j default).values))]) ++ post).map some := by
        rw [List.map_append, List.map_cons, ← hpre]
        simp
      simp only [accumulate, ho, hd, deref, bind, Except.bind, addBiasUnit,
        outer_multiply e _ h0b, hadd, Option.join, Option.bind, id, hset]
      rw [ih (j + 1) _ post (by simp [hpre]) (by simpa using hpost)]
      · simp [matsAdd, gradsFrom]
      · intro i hi
        have := hall (i + 1) (by simp; omega)
        simp only [List.getD_cons_succ] at this
        have e1 : j + 1 + i = j + (i + 1) := by omega
        rw [e1]
        exact this

theorem getD_zipWith {α β γ : Type} (f : α → β → γ) (da : α) (db : β) :
    ∀ (a : List α) (b : List β), a.length = b.length → ∀ i,
      (List.zipWith f a b).getD i (f da db) = f (a.getD i da) (b.getD i db) := by
  intro a
  induction a with
  | nil =>
    intro b h i
    have : b = [] := List.length_eq_zero.mp (by simpa using h.symm)
    simp [this]
  | cons x a ih =>
    intro b h i
    cases b with
    | nil => simp at h
    | cons y b =>
      cases i with
      | zero => simp
      | succ i =>
        have := ih b (by simpa using h) i
        simpa using this

theorem gradsFrom_length (output : List Record) :
    ∀ (errs : List Vec) (j : Nat), (gradsFrom output j errs).length = errs.length := by
  intro errs
  induction errs with
  | nil => intro j; simp [gradsFrom]
  | cons e rest ih => intro j; simp [gradsFrom, ih]

theorem gradsFrom_getD (output : List Record) :
    ∀ (errs : List Vec) (j i : Nat), i < errs.length →
      (gradsFrom output j errs).getD i []
        = outer (errs.getD i []) (1 :: (output.getD (j + i) default).values) := by
  intro errs
  induction errs with
  | nil => intro j i h; simp at h
  | cons e rest ih =>
    intro j i h
    cases i with
    | zero => simp [gradsFrom]
    | succ i =>
      have := ih (j + 1) i (by simpa using h)
      have e1 : j + 1 + i = j + (i + 1) := by omega
      rw [e1] at this
      simpa [gradsFrom] using this

theorem layerError_length (sd : ℚ → ℚ) {net : Network} {e : Example}
    (he : ExampleFits net e) (j : Nat) (hj : j < net.layers.length) :
    (layerError sd net (net.propagate e.input) e.output j).length = net.layers.getD j 0 := by
  unfold layerError
  rw [errorBack_length sd he _ (by have := he.1; omega), he.1]
  congr 1
  omega

theorem forwardErrors_getD (sd : ℚ → ℚ) (net : Network) (e : Example) (i : Nat)
    (hi : i < (net.propagate e.input).length - 1) :
    ((List.range ((net.propagate e.input).length - 1)).map
      (fun j => layerError sd net (net.propagate e.input) e.output (j + 1))).getD i []
      = layerError sd net (net.propagate e.input) e.output (i + 1) := by
  rw [List.getD_eq_getElem _ _ (by simpa using hi)]
  simp

theorem exampleGradient_getD (sd : ℚ → ℚ) (net : Network) (e : Example) (i : Nat)
    (hi : i < (net.propagate e.input).length - 1) :
    (exampleGradient sd net e).getD i []
      = outer (layerError sd net (net.propagate e.input) e.output (i + 1))
          (1 :: ((net.propagate e.input).getD i default).values) := by
  unfold exampleGradient
  rw [gradsFrom_getD _ _ _ _ (by simpa using hi), forwardErrors_getD sd net e i hi]
  simp

theorem exampleGradient_shaped (sd : ℚ → ℚ) {net : Network} {e : Example}
    (hn : WellShaped net) (he : ExampleFits net e) :
    Shaped net.layers (exampleGradient sd net e) := by
  have hL := hn.1
  have hlen := he.1
  have hl : (exampleGradient sd net e).length = net.layers.length - 1 := by
    simp [exampleGradient, gradsFrom_length, hlen]
  constructor
  · rw [hl]; omega
  · intro j hj
    rw [hl] at hj
    rw [exampleGradient_getD sd net e j (by omega)]
    have := outer_hasShape (layerError sd net (net.propagate e.input) e.output (j + 1))
      (1 :: ((net.propagate e.input).getD j default).values)
    rw [layerError_length sd he (j + 1) (by omega), List.length_cons,
      (he.2.1 j (by omega)).2] at this
    exact this

theorem matsAdd_getD (a b : List Mat) (h : a.length = b.length) (i : Nat) :
    (matsAdd a b).getD i [] = matAdd (a.getD i []) (b.getD i []) := by
  have := getD_zipWith matAdd [] [] a b h i
  simpa [matsAdd, matAdd] using this

theorem matsAdd_shaped {layers : List Nat} {a b : List Mat}
    (ha : Shaped layers a) (hb : Shaped layers b) : Shaped layers (matsAdd a b) := by
  have hlen : a.length = b.length := by have := ha.1; have := hb.1; omega
  have hl : (matsAdd a b).length = a.length := by simp [matsAdd, hlen]
  constructor
  · rw [hl]; exact ha.1
  · intro j hj
    rw [hl] at hj
    rw [matsAdd_getD a b hlen j]
    exact matAdd_hasShape _ _ _ _ (ha.2 j hj) (hb.2 j (by omega))

theorem zeroWeights_shaped : ∀ (rest : List Nat) (a : Nat),
    Shaped (a :: rest) (zeroWeights (a :: rest)) := by
  intro rest
  induction rest with
  | nil => intro a; exact ⟨by simp [zeroWeights], by intro j hj; simp [zeroWeights] at hj⟩
  | cons b rest ih =>
    intro a
    have := ih b
    constructor
    · simpa [zeroWeights] using this.1
    · intro j hj
      cases j with
      | zero =>
        simp only [zeroWeights, List.getD_cons_zero, List.getD_cons_succ]
        exact ⟨by simp, by intro row hrow; rw [List.eq_of_mem_replicate hrow]; simp⟩
      | succ j =>
        simp only [zeroWeights, List.getD_cons_succ, List.length_cons] at hj ⊢
        exact this.2 j (by omega)

theorem outputError_ok (sd : ℚ → ℚ) {net : Network} {e : Example}
    (hn : WellShaped net) (he : ExampleFits net e) :
    outputError (net.propagate e.input) e.output
      = .ok (errorBack sd net (net.propagate e.input) e.output 0) := by
  have hL := hn.1
  obtain ⟨h1, h2, h3⟩ := he
  have hpos : 0 < (net.propagate e.input).length := by omega
  have hsub : Vec.subtract ((net.propagate e.input).getD
      ((net.propagate e.input).length - 1) default).values e.output
      = some (List.zipWith (fun x y => x - y) ((net.propagate e.input).getD
          ((net.propagate e.input).length - 1) default).values e.output) := by
    unfold Vec.subtract
    rw [if_pos]
    rw [h1, (h2 _ (by omega)).2, h3]
  simp only [outputError, getLast?_eq_some_getD _ hpos default, deref, bind, Except.bind, hsub,
    errorBack, getLastD_eq_getD _ hpos default]

theorem reverse_errors (sd : ℚ → ℚ) (net : Network) (e : Example)
    (h : (net.propagate e.input).length = net.layers.length) :
    ((List.range (net.layers.length - 1)).map
        (errorBack sd net (net.propagate e.input) e.output)).reverse
      = (List.range ((net.propagate e.input).length - 1)).map
          (fun j => layerError sd net (net.propagate e.input) e.output (j + 1)) := by
  apply List.ext_getElem
  · simp [h]
  · intro n h1 h2
    have hn : n < net.layers.length - 1 := by simpa using h1
    simp only [List.getElem_reverse, List.getElem_map, List.getElem_range, layerError,
      List.length_map, List.length_range]
    congr 1
    omega

theorem exampleStep_ok (sd : ℚ → ℚ) {net : Network} {e : Example} {d : List Mat}
    (hn : WellShaped net) (he : ExampleFits net e) (hd : Shaped net.layers d) :
    exampleStep sd net (d.map some) e
      = .ok ((matsAdd d (exampleGradient sd net e)).map some) := by
  have hL := hn.1
  have hlen := he.1
  have hback := backward_ok sd hn he (net.layers.length - 2) 1 (by omega) (by omega)
  have h1 : (List.range 1).map (errorBack sd net (net.propagate e.input) e.output)
      = [errorBack sd net (net.propagate e.input) e.output 0] := by
    simp [List.range_succ]
  rw [h1] at hback
  have hacc := accumulate_ok (net.propagate e.input)
    ((List.range ((net.propagate e.input).length - 1)).map
      (fun j => layerError sd net (net.propagate e.input) e.output (j + 1)))
    0 [] d rfl (by have := hd.1; simp; omega)
    (by
      intro i hi
      have hi2 : i < (net.propagate e.input).length - 1 := by simpa using hi
      rw [forwardErrors_getD sd net e i hi2]
      have hlenE := layerError_length sd he (i + 1) (by omega)
      refine ⟨by omega, ?_, ?_⟩
      · intro h0
        have := layers_pos hn (i + 1) (by omega)
        rw [h0, List.length_nil] at hlenE
        omega
      · rw [hlenE, Nat.zero_add, (he.2.1 i (by omega)).2]
        exact hd.2 i (by have := hd.1; omega))
  simp only [List.nil_append] at hacc
  have hback2 : backwardLoop sd net (net.propagate e.input)
      ((net.propagate e.input).length - 2)
      [errorBack sd net (net.propagate e.input) e.output 0]
      = .ok ((List.range (net.layers.length - 1)).map
          (errorBack sd net (net.propagate e.input) e.output)) := by
    rw [hlen]; exact hback
  simp only [exampleStep, outputError_ok sd hn he, bind, Except.bind, hback2,
    reverse_errors sd net e hlen, hacc, exampleGradient]

theorem exampleLoop_ok (sd : ℚ → ℚ) {net : Network} (hn : WellShaped net) :
    ∀ (examples : List Example) (d : List Mat), (∀ e ∈ examples, ExampleFits net e) →
      Shaped net.layers d →
      exampleLoop sd net examples (d.map some)
          = .ok ((totalDelta sd net examples d).map some) ∧
        Shaped net.layers (totalDelta sd net examples d) := by
  intro examples
  induction examples with
  | nil => intro d _ hd; exact ⟨by simp [exampleLoop, totalDelta], by simpa [totalDelta] using hd⟩
  | cons e rest ih =>
    intro d hall hd
    have he := hall e (by simp)
    have hnext := matsAdd_shaped hd (exampleGradient_shaped sd hn he)
    obtain ⟨h1, h2⟩ := ih (matsAdd d (exampleGradient sd net e))
      (fun x hx => hall x (List.mem_cons_of_mem _ hx)) hnext
    constructor
    · simp only [exampleLoop, exampleStep_ok sd hn he hd, bind, Except.bind, h1, totalDelta,
        List.foldl_cons]
    · simpa [totalDelta] using h2

theorem regularizationStep_eq (net : Network) (options : Options) (i : Nat)
    (derivative : JSMat) :
    regularizationStep net options i derivative
      = if options.regularization ≠ 0 ∧ net.weights.length ≤ i then .error .typeError
        else .ok () := by
  unfold regularizationStep
  by_cases hr : options.regularization = 0
  · simp [hr]; rfl
  · by_cases hi : i < net.weights.length
    · rw [if_pos hr, getElem?_eq_some_getD _ _ hi [], if_neg (by omega)]
      rfl
    · rw [if_pos hr, List.getElem?_eq_none (by omega), if_pos ⟨hr, by omega⟩]
      rfl

theorem derivativeLoop_eq (net : Network) (options : Options) (n : Nat) :
    ∀ (d : List Mat) (i : Nat), (options.regularization ≠ 0 → i ≤ net.weights.length) →
      derivativeLoop net options n i (d.map some)
        = if options.regularization ≠ 0 ∧ net.weights.length < i + d.length then
            .error .typeError
          else .ok (d.map (fun m => m.multiplyScalar (recip n))) := by
  intro d
  induction d with
  | nil =>
    intro i hi
    rw [if_neg (by intro hc; have := hi hc.1; have := hc.2; simp at this; omega)]
    rfl
  | cons m rest ih =>
    intro i hi
    simp only [List.map_cons, derivativeLoop, deref, bind, Except.bind,
      regularizationStep_eq, List.length_cons]
    by_cases hr : options.regularization = 0
    · rw [if_neg (fun hc => hc.1 hr), if_neg (fun hc => hc.1 hr),
        ih (i + 1) (fun hc => absurd hr hc), if_neg (fun hc => hc.1 hr)]
      rfl
    · by_cases h1 : net.weights.length ≤ i
      · rw [if_pos ⟨hr, h1⟩, if_pos ⟨hr, by omega⟩]
      · rw [if_neg (by omega), ih (i + 1) (by omega)]
        by_cases h2 : net.weights.length < i + 1 + rest.length
        · rw [if_pos ⟨hr, h2⟩, if_pos ⟨hr, by omega⟩]
        · rw [if_neg (by omega), if_neg (by omega)]
          rfl

theorem derivativeLoop_ok (net : Network) (options : Options) (n : Nat)
    (d : List Mat) (i : Nat)
    (h : options.regularization ≠ 0 → i + d.length ≤ net.weights.length) :
    derivativeLoop net options n i (d.map some)
      = .ok (d.map (fun m => m.multiplyScalar (recip n))) := by
  rw [derivativeLoop_eq, if_neg]
  · intro hc
    have := h hc.1
    omega
  · intro hc
    have := h hc
    omega

theorem initialDelta_shaped {net : Network} {options : Options}
    (hn : WellShaped net) (hs : SeedFits net options) :
    Shaped net.layers (initialDelta net options) := by
  unfold initialDelta
  unfold SeedFits at hs
  cases hopt : options.delta with
  | none =>
    have hL := hn.1
    cases hl : net.layers with
    | nil => rw [hl] at hL; simp at hL
    | cons a rest => exact zeroWeights_shaped rest a
  | some d =>
    rw [hopt] at hs
    exact hs

/-- The central characterisation: on well-shaped inputs `run` returns, and its value
is the seed plus the gradients of all examples, every entry multiplied by
`1 / examples.length`. -/
theorem run_ok (sd : ℚ → ℚ) {net : Network} {examples : List Example} {options : Options}
    (hn : WellShaped net) (he : ∀ e ∈ examples, ExampleFits net e)
    (hs : SeedFits net options) :
    run sd net examples options
      = .ok ((totalDelta sd net examples (initialDelta net options)).map
          (fun m => m.multiplyScalar (recip examples.length))) := by
  have hd := initialDelta_shaped hn hs
  obtain ⟨h1, h2⟩ := exampleLoop_ok sd hn examples _ he hd
  have h3 := derivativeLoop_ok net options examples.length
    (totalDelta sd net examples (initialDelta net options)) 0
    (fun _ => by have := h2.1; have := hn.2.2.1; omega)
  simp only [run, h1, bind, Except.bind, h3]

/-! ## Entries of the derivatives -/

theorem getD_map_of {α β : Type} (f : α → β) (l : List α) (da : α) (db : β)
    (h : f da = db) (i : Nat) : (l.map f).getD i db = f (l.getD i da) := by
  by_cases hi : i < l.length
  · rw [List.getD_eq_getElem _ _ (by simpa using hi), List.getElem_map,
      List.getD_eq_getElem _ _ hi]
  · rw [List.getD_eq_default _ _ (by simp; omega), List.getD_eq_default _ _ (by omega), h]

theorem getD_replicate_of {α : Type} (n : Nat) (a d : α) (i : Nat) :
    (List.replicate n a).getD i d = if i < n then a else d := by
  by_cases hi : i < n
  · rw [if_pos hi, List.getD_eq_getElem _ _ (by simpa using hi), List.getElem_replicate]
  · rw [if_neg hi, List.getD_eq_default _ _ (by simp; omega)]

theorem entry_outer (d b : Vec) (r c : Nat) :
    ((outer d b).getD r []).getD c 0 = d.getD r 0 * b.getD c 0 := by
  unfold outer
  by_cases hr : r < d.length
  · have h1 : (List.map (fun x => List.map (fun y => x * y) b) d).getD r []
        = List.map (fun y => d.getD r 0 * y) b := by
      rw [List.getD_eq_getElem _ _ (by simpa using hr), List.getElem_map,
        List.getD_eq_getElem d _ hr]
    rw [h1]
    exact getD_map_of (fun y => d.getD r 0 * y) b 0 0 (mul_zero _) c
  · have h1 : (List.map (fun x => List.map (fun y => x * y) b) d).getD r [] = [] :=
      List.getD_eq_default _ _ (by simp; omega)
    rw [h1, List.getD_eq_default d _ (by omega)]
    simp

theorem entry_matAdd (a b : Mat) (r c : Nat) (ha : a.hasShape r c) (hb : b.hasShape r c)
    (i k : Nat) :
    ((matAdd a b).getD i []).getD k 0 = (a.getD i []).getD k 0 + (b.getD i []).getD k 0 := by
  have h1 := getD_zipWith (fun (r s : List ℚ) => List.zipWith (fun x y => x + y) r s)
    [] [] a b (by rw [ha.1, hb.1]) i
  simp only [List.zipWith_nil_left] at h1
  unfold matAdd
  rw [h1]
  have hrow : (a.getD i []).length = (b.getD i []).length := by
    by_cases hi : i < r
    · rw [hasShape_getD ha hi, hasShape_getD hb hi]
    · rw [List.getD_eq_default _ _ (by rw [ha.1]; omega),
        List.getD_eq_default _ _ (by rw [hb.1]; omega)]
  have h2 := getD_zipWith (fun (x y : ℚ) => x + y) 0 0 (a.getD i []) (b.getD i []) hrow k
  simpa using h2

theorem entry_matsAdd {layers : List Nat} {a b : List Mat}
    (ha : Shaped layers a) (hb : Shaped layers b) (j r c : Nat) :
    entry (matsAdd a b) j r c = entry a j r c + entry b j r c := by
  have hlen : a.length = b.length := by have := ha.1; have := hb.1; omega
  unfold entry
  rw [matsAdd_getD a b hlen j]
  by_cases hj : j < a.length
  · exact entry_matAdd _ _ _ _ (ha.2 j hj) (hb.2 j (by omega)) r c
  · rw [List.getD_eq_default a _ (by omega), List.getD_eq_default b _ (by omega)]
    simp [matAdd]

theorem entry_totalDelta (sd : ℚ → ℚ) {net : Network} (hn : WellShaped net) :
    ∀ (examples : List Example) (d : List Mat), (∀ e ∈ examples, ExampleFits net e) →
      Shaped net.layers d → ∀ j r c,
      entry (totalDelta sd net examples d) j r c
        = entry d j r c + (examples.map (fun e => entry (exampleGradient sd net e) j r c)).sum := by
  intro examples
  induction examples with
  | nil => intro d _ _ j r c; simp [totalDelta]
  | cons e rest ih =>
    intro d hall hd j r c
    have he := hall e (by simp)
    have hg := exampleGradient_shaped sd hn he
    have := ih (matsAdd d (exampleGradient sd net e))
      (fun x hx => hall x (List.mem_cons_of_mem _ hx)) (matsAdd_shaped hd hg) j r c
    simp only [totalDelta, List.foldl_cons] at this ⊢
    rw [this, entry_matsAdd hd hg, List.map_cons, List.sum_cons]
    ring

theorem entry_exampleGradient (sd : ℚ → ℚ) (net : Network) (e : Example) (j r c : Nat)
    (hj : j < (net.propagate e.input).length - 1) :
    entry (exampleGradient sd net e) j r c
      = (layerError sd net (net.propagate e.input) e.output (j + 1)).getD r 0
          * (1 :: ((net.propagate e.input).getD j default).values).getD c 0 := by
  unfold entry
  rw [exampleGradient_getD sd net e j hj, entry_outer]

theorem entry_scaleMat (k : ℚ) (ms : List Mat) (j r c : Nat) :
    entry (ms.map (scaleMat k)) j r c = entry ms j r c * k := by
  unfold entry
  rw [getD_map_of (scaleMat k) ms [] [] rfl j]
  unfold scaleMat
  rw [getD_map_of (fun row => List.map (fun x => x * k) row) (ms.getD j []) [] [] rfl r]
  exact getD_map_of (fun x => x * k) _ 0 0 (zero_mul _) c

theorem entry_zeroWeights : ∀ (layers : List Nat) (j r c : Nat),
    entry (zeroWeights layers) j r c = 0 := by
  intro layers
  induction layers with
  | nil => intro j r c; simp [entry, zeroWeights]
  | cons a rest ih =>
    intro j r c
    cases rest with
    | nil => simp [entry, zeroWeights]
    | cons b rest =>
      cases j with
      | zero =>
        simp only [entry, zeroWeights, List.getD_cons_zero]
        rw [getD_replicate_of]
        by_cases hr : r < b
        · rw [if_pos hr, getD_replicate_of]
          simp
        · rw [if_neg hr]
          simp
      | succ j =>
        have := ih j r c
        simpa [entry, zeroWeights] using this

theorem multiplyScalar_recip (m : Mat) (n : Nat) (hn : 0 < n) :
    m.multiplyScalar (recip n) = finMat (scaleMat (1 / (n : ℚ)) m) := by
  have h : recip n = .fin (1 / (n : ℚ)) := by
    unfold recip
    rw [if_neg (by omega)]
  simp [Mat.multiplyScalar, h, finMat, scaleMat, JSNum.mul]

/-- On well-shaped inputs with at least one example, `run` returns the seed plus the
gradients of all examples, every entry multiplied by the rational
`1 / examples.length`. -/
theorem run_ok_pos (sd : ℚ → ℚ) {net : Network} {examples : List Example}
    {options : Options} (hn : WellShaped net) (he : ∀ e ∈ examples, ExampleFits net e)
    (hs : SeedFits net options) (hne : examples ≠ []) :
    run sd net examples options
      = .ok (((totalDelta sd net examples (initialDelta net options)).map
          (scaleMat (1 / (examples.length : ℚ)))).map finMat) := by
  have hpos : 0 < examples.length := List.length_pos.mpr hne
  rw [run_ok sd hn he hs, List.map_map]
  congr 1
  apply List.map_congr_left
  intro m _
  exact multiplyScalar_recip m _ hpos

/-! ## Shape of the result -/

theorem finMat_scaleMat_length (k : ℚ) (m : Mat) : (finMat (scaleMat k m)).length = m.length := by
  simp [finMat, scaleMat]

theorem finMat_scaleMat_row (k : ℚ) (m : Mat) (c : Nat) (h : ∀ row ∈ m, row.length = c) :
    ∀ row ∈ finMat (scaleMat k m), row.length = c := by
  intro row hrow
  simp only [finMat, scaleMat, List.map_map, List.mem_map, Function.comp_apply] at hrow
  obtain ⟨x, hx, rfl⟩ := hrow
  simpa using h x hx

/-- C1: on a well-shaped network with at least two layers, a non-empty list of fitting
examples and no seed or a seed with the weights' shapes, `run` returns one matrix per
weight matrix (one less than there are layers), and matrix `i` has the row count of
`weights[i]` and only rows with the column count of `weights[i]`. -/
theorem run_shape (sd : ℚ → ℚ) (net : Network) (examples : List Example)
    (options : Options) (hn : WellShaped net) (hne : examples ≠ [])
    (he : ∀ e ∈ examples, ExampleFits net e) (hs : SeedFits net options) :
    ∃ ms : List JSMat, run sd net examples options = .ok ms ∧
      ms.length + 1 = net.layers.length ∧ ms.length = net.weights.length ∧
      ∀ i, i < ms.length →
        (ms.getD i []).length = (net.weights.getD i []).rows ∧
        ∀ row ∈ ms.getD i [], row.length = (net.weights.getD i []).cols := by
  have hT := (exampleLoop_ok sd hn examples _ he (initialDelta_shaped hn hs)).2
  have hW := hn.2.2
  refine ⟨_, run_ok_pos sd hn he hs hne, ?_, ?_, ?_⟩
  · simpa using hT.1
  · have := hT.1
    have := hW.1
    simp only [List.length_map]
    omega
  · intro i hi
    simp only [List.length_map] at hi
    rw [List.map_map, getD_map_of _ _ [] [] rfl i]
    have hTi := hT.2 i hi
    have hWi := hW.2 i (by have := hT.1; have := hW.1; omega)
    have hpos := layers_pos hn (i + 1) (by have := hT.1; omega)
    constructor
    · rw [Function.comp_apply, finMat_scaleMat_length, hTi.1, Mat.rows, hWi.1]
    · rw [hasShape_cols hWi hpos]
      exact finMat_scaleMat_row _ _ _ hTi.2

/-- Witness for C1: the scenario of the specification. -/
theorem run_shape_witness :
    WellShaped (scenarioNet (3 / 5) (2 / 3)) ∧ scenarioExamples ≠ [] ∧
    (∀ e ∈ scenarioExamples, ExampleFits (scenarioNet (3 / 5) (2 / 3)) e) ∧
    SeedFits (scenarioNet (3 / 5) (2 / 3)) ⟨none, 0⟩ ∧
    ∃ ms : List JSMat,
      run scenarioDerivative (scenarioNet (3 / 5) (2 / 3)) scenarioExamples ⟨none, 0⟩ = .ok ms ∧
      ms.length + 1 = (scenarioNet (3 / 5) (2 / 3)).layers.length ∧
      ms.length = (scenarioNet (3 / 5) (2 / 3)).weights.length ∧
      ∀ i, i < ms.length →
        (ms.getD i []).length = ((scenarioNet (3 / 5) (2 / 3)).weights.getD i []).rows ∧
        ∀ row ∈ ms.getD i [],
          row.length = ((scenarioNet (3 / 5) (2 / 3)).weights.getD i []).cols :=
  ⟨by decide, List.cons_ne_nil _ _, by decide, by decide,
    run_shape scenarioDerivative (scenarioNet (3 / 5) (2 / 3)) scenarioExamples ⟨none, 0⟩
      (by decide) (List.cons_ne_nil _ _) (by decide) (by decide)⟩

/-! ## Regularization -/

/-- C2 (the code at the scenario of the specification): with `regularization = 1` and
a seed of zeros `run` returns `[[a, a, a]]` for the output error `a - 0`, the same
matrix as with `regularization = 0`; the entries `0.2` and `0.3` of the weight
matrix are not added to the two non-bias entries. -/
theorem run_scenario_regularized (z a : ℚ) :
    run scenarioDerivative (scenarioNet z a) scenarioExamples ⟨some [[[0, 0, 0]]], 1⟩
        = .ok [[[.fin a, .fin a, .fin a]]] ∧
      run scenarioDerivative (scenarioNet z a) scenarioExamples ⟨some [[[0, 0, 0]]], 0⟩
        = .ok [[[.fin a, .fin a, .fin a]]] := by
  constructor <;>
  simp [run, exampleLoop, exampleStep, outputError, backwardLoop, accumulate, derivativeLoop,
    regularizationStep, initialDelta, cloneWeights, scenarioNet, scenarioExamples, deref,
    Vec.subtract, Vec.transpose, Mat.multiply, Mat.add, Mat.rows, Mat.cols, Mat.transpose,
    toMatrix, addBiasUnit, dot, Mat.multiplyScalar, recip, JSNum.mul, bind, Except.bind, pure,
    Except.pure, List.range_succ]

/-! ## The empty example list -/

/-- C3 (counterexample): on the scenario's network `run` on an empty example list
raises no error; it returns the zero accumulator times `1 / 0`, a matrix of
`NaN`. -/
theorem run_empty_scenario :
    run scenarioDerivative (scenarioNet (3 / 5) (2 / 3)) [] ⟨none, 0⟩
        = .ok [[[.nan, .nan, .nan]]] ∧
      run scenarioDerivative (scenarioNet (3 / 5) (2 / 3)) [] ⟨none, 0⟩
        ≠ .error .invalidArgument := by
  have h : run scenarioDerivative (scenarioNet (3 / 5) (2 / 3)) [] ⟨none, 0⟩
      = .ok [[[.nan, .nan, .nan]]] := by
    simp [run, exampleLoop, derivativeLoop, regularizationStep, initialDelta, zeroWeights,
      scenarioNet, deref, Mat.multiplyScalar, recip, JSNum.mul, JSNum.timesInf, bind,
      Except.bind, pure, Except.pure]
  exact ⟨h, by rw [h]; simp⟩

/-- C3 (amended): on an empty example list `run` never raises `InvalidArgument`.  It
returns the initial accumulator (the seed, or zero matrices) with every entry
multiplied by `1 / 0 = Infinity` (`NaN` for a zero entry, plus or minus `Infinity`
otherwise); only when the regularization multiplier is non-zero and the seed has
more matrices than the network has weight matrices it raises a `TypeError`. -/
theorem run_empty (sd : ℚ → ℚ) (net : Network) (options : Options) :
    run sd net [] options
      = if options.regularization ≠ 0 ∧
            net.weights.length < (initialDelta net options).length then
          .error .typeError
        else
          .ok ((initialDelta net options).map
            (fun m => List.map (fun row => List.map JSNum.timesInf row) m)) := by
  simp only [run, exampleLoop, bind, Except.bind, List.length_nil]
  rw [derivativeLoop_eq net options 0 _ 0 (fun _ => Nat.zero_le _), Nat.zero_add]
  have h : ∀ m : Mat, m.multiplyScalar (recip 0)
      = List.map (fun row => List.map JSNum.timesInf row) m := by
    intro m
    simp [Mat.multiplyScalar, recip, JSNum.mul]
  simp only [h]

/-! ## Averaging and seeds -/

theorem entry_eq_getElem (a : List Mat) (j r c : Nat) (hj : j < a.length)
    (hr : r < a[j].length) (hc : c < a[j][r].length) : entry a j r c = a[j][r][c] := by
  unfold entry
  rw [List.getD_eq_getElem a _ hj, List.getD_eq_getElem _ _ hr, List.getD_eq_getElem _ _ hc]

theorem shaped_ext {layers : List Nat} {a b : List Mat} (ha : Shaped layers a)
    (hb : Shaped layers b) (h : ∀ j r c, entry a j r c = entry b j r c) : a = b := by
  apply List.ext_getElem (by have := ha.1; have := hb.1; omega)
  intro j hja hjb
  have sa := ha.2 j hja
  have sb := hb.2 j hjb
  rw [List.getD_eq_getElem _ _ hja] at sa
  rw [List.getD_eq_getElem _ _ hjb] at sb
  apply List.ext_getElem (by rw [sa.1, sb.1])
  intro r hra hrb
  have la := sa.2 _ (List.getElem_mem hra)
  have lb := sb.2 _ (List.getElem_mem hrb)
  apply List.ext_getElem (by rw [la, lb])
  intro c hca hcb
  rw [← entry_eq_getElem a j r c hja hra hca, ← entry_eq_getElem b j r c hjb hrb hcb]
  exact h j r c

theorem scaleMat_shaped {layers : List Nat} {a : List Mat} (k : ℚ) (ha : Shaped layers a) :
    Shaped layers (a.map (scaleMat k)) := by
  constructor
  · simpa using ha.1
  · intro j hj
    have hj2 : j < a.length := by simpa using hj
    rw [getD_map_of (scaleMat k) a [] [] rfl j]
    have := ha.2 j hj2
    constructor
    · simpa [scaleMat] using this.1
    · intro row hrow
      simp only [scaleMat, List.mem_map] at hrow
      obtain ⟨x, hx, rfl⟩ := hrow
      simpa using this.2 x hx

theorem zipWith_right_comm {α : Type} (f : α → α → α)
    (hf : ∀ a x y, f (f a x) y = f (f a y) x) :
    ∀ a x y : List α,
      List.zipWith f (List.zipWith f a x) y = List.zipWith f (List.zipWith f a y) x := by
  intro a
  induction a with
  | nil => intro x y; simp
  | cons a0 a ih =>
    intro x y
    cases x with
    | nil => cases y <;> simp
    | cons x0 x =>
      cases y with
      | nil => simp
      | cons y0 y => simp [hf a0 x0 y0, ih x y]

theorem totalDelta_shaped (sd : ℚ → ℚ) {net : Network} {examples : List Example}
    {d : List Mat} (hn : WellShaped net) (he : ∀ e ∈ examples, ExampleFits net e)
    (hd : Shaped net.layers d) : Shaped net.layers (totalDelta sd net examples d) :=
  (exampleLoop_ok sd hn examples d he hd).2

/-- C4: on a well-shaped network with a non-empty list of fitting examples, no seed
and `regularization = 0`, every entry of every matrix `run` returns is the
arithmetic mean, over the examples `e`, of the same entry of the matrix that `run`
returns on the one-example list `[e]`. -/
theorem run_average (sd : ℚ → ℚ) (net : Network) (examples : List Example)
    (hn : WellShaped net) (hne : examples ≠ [])
    (he : ∀ e ∈ examples, ExampleFits net e) :
    ∃ (m : List Mat) (single : Example → List Mat),
      run sd net examples ⟨none, 0⟩ = .ok (m.map finMat) ∧
      (∀ e ∈ examples, run sd net [e] ⟨none, 0⟩ = .ok ((single e).map finMat)) ∧
      ∀ j r c, entry m j r c
        = (examples.map (fun e => entry (single e) j r c)).sum / (examples.length : ℚ) := by
  have hs : SeedFits net ⟨none, 0⟩ := trivial
  have hz : Shaped net.layers (initialDelta net ⟨none, 0⟩) := initialDelta_shaped hn hs
  have hz0 : ∀ j r c, entry (initialDelta net ⟨none, 0⟩) j r c = 0 :=
    fun j r c => entry_zeroWeights net.layers j r c
  refine ⟨_, fun e => (totalDelta sd net [e] (initialDelta net ⟨none, 0⟩)).map
    (scaleMat (1 / (([e] : List Example).length : ℚ))), run_ok_pos sd hn he hs hne, ?_, ?_⟩
  · intro e hmem
    exact run_ok_pos sd hn (fun x hx => by rw [List.mem_singleton.mp hx]; exact he e hmem) hs
      (List.cons_ne_nil _ _)
  · intro j r c
    rw [entry_scaleMat, entry_totalDelta sd hn examples _ he hz, hz0, zero_add]
    have hsum : (examples.map (fun e => entry ((totalDelta sd net [e]
          (initialDelta net ⟨none, 0⟩)).map
            (scaleMat (1 / (([e] : List Example).length : ℚ)))) j r c))
        = examples.map (fun e => entry (exampleGradient sd net e) j r c) := by
      apply List.map_congr_left
      intro e hmem
      rw [entry_scaleMat, entry_totalDelta sd hn [e] _
        (fun x hx => by rw [List.mem_singleton.mp hx]; exact he e hmem) hz, hz0]
      simp
    rw [hsum]
    ring

/-- Witness for C4: the scenario's network with two examples. -/
theorem run_average_witness :
    WellShaped (scenarioNet (3 / 5) (2 / 3)) ∧
    (∀ e ∈ [(⟨[1, 1], [0]⟩ : Example), ⟨[0, 1], [1]⟩],
      ExampleFits (scenarioNet (3 / 5) (2 / 3)) e) ∧
    ∃ (m : List Mat) (single : Example → List Mat),
      run scenarioDerivative (scenarioNet (3 / 5) (2 / 3))
          [⟨[1, 1], [0]⟩, ⟨[0, 1], [1]⟩] ⟨none, 0⟩ = .ok (m.map finMat) ∧
      (∀ e ∈ [(⟨[1, 1], [0]⟩ : Example), ⟨[0, 1], [1]⟩],
        run scenarioDerivative (scenarioNet (3 / 5) (2 / 3)) [e] ⟨none, 0⟩
          = .ok ((single e).map finMat)) ∧
      ∀ j r c, entry m j r c
        = (([(⟨[1, 1], [0]⟩ : Example), ⟨[0, 1], [1]⟩]).map
            (fun e => entry (single e) j r c)).sum
          / (([(⟨[1, 1], [0]⟩ : Example), ⟨[0, 1], [1]⟩]).length : ℚ) :=
  ⟨by decide, by decide,
    run_average scenarioDerivative (scenarioNet (3 / 5) (2 / 3))
      [⟨[1, 1], [0]⟩, ⟨[0, 1], [1]⟩] (by decide) (List.cons_ne_nil _ _) (by decide)⟩

theorem layerError_last (sd : ℚ → ℚ) (net : Network) (output : List Record) (y : Vec) :
    layerError sd net output y (output.length - 1)
      = List.zipWith (fun a b => a - b) (output.getLastD default).values y := by
  unfold layerError
  rw [Nat.sub_self]
  rfl

theorem layerError_hidden (sd : ℚ → ℚ) (net : Network) (output : List Record) (y : Vec)
    (j : Nat) (hj : j + 2 ≤ output.length) :
    layerError sd net output y j
      = hiddenError sd (net.weights.getD j []) (output.getD j default).raw
          (layerError sd net output y (j + 1)) := by
  unfold layerError
  obtain ⟨k, hk⟩ : ∃ k, output.length - 1 - j = k + 1 := ⟨output.length - 2 - j, by omega⟩
  have h1 : output.length - 1 - (j + 1) = k := by omega
  have h2 : output.length - 2 - k = j := by omega
  rw [hk, h1]
  simp only [errorBack, h2]

/-- C7: for a well-shaped network with two layers, one fitting example `(x, y)`, no
seed and `regularization = 0`, `run` returns exactly one matrix `m`, shaped like the
weight matrix, with `m[r][0] = a[r] - y[r]` and
`m[r][c] = (a[r] - y[r]) * v0[c - 1]` for `c ≥ 1`, where `v0` and `a` are the
activated values `propagate` returns for the input and the output layer. -/
theorem run_two_layers (sd : ℚ → ℚ) (net : Network) (x y : Vec)
    (hn : WellShaped net) (h2 : net.layers.length = 2) (he : ExampleFits net ⟨x, y⟩) :
    ∃ m : Mat, run sd net [⟨x, y⟩] ⟨none, 0⟩ = .ok [finMat m] ∧
      m.hasShape (net.layers.getD 1 0) (net.layers.getD 0 0 + 1) ∧
      ∀ r,
        (m.getD r []).getD 0 0
          = ((net.propagate x).getD 1 default).values.getD r 0 - y.getD r 0 ∧
        ∀ c, 1 ≤ c →
          (m.getD r []).getD c 0
            = (((net.propagate x).getD 1 default).values.getD r 0 - y.getD r 0)
              * ((net.propagate x).getD 0 default).values.getD (c - 1) 0 := by
  have hs : SeedFits net ⟨none, 0⟩ := trivial
  have hall : ∀ e ∈ [(⟨x, y⟩ : Example)], ExampleFits net e :=
    fun e h => by rw [List.mem_singleton.mp h]; exact he
  have hz : Shaped net.layers (initialDelta net ⟨none, 0⟩) := initialDelta_shaped hn hs
  have hT := scaleMat_shaped (1 / (([(⟨x, y⟩ : Example)]).length : ℚ))
    (totalDelta_shaped sd hn hall hz)
  have hrun := run_ok_pos sd hn hall hs (List.cons_ne_nil _ _)
  have hlen1 := hT.1
  obtain ⟨m, hm⟩ := List.length_eq_one.mp (show ((totalDelta sd net [(⟨x, y⟩ : Example)]
      (initialDelta net ⟨none, 0⟩)).map
        (scaleMat (1 / (([(⟨x, y⟩ : Example)]).length : ℚ)))).length = 1 by omega)
  have hlen : (net.propagate x).length = 2 := by rw [← h2]; exact he.1
  have hentry : ∀ r c, (m.getD r []).getD c 0
      = (((net.propagate x).getD 1 default).values.getD r 0 - y.getD r 0)
        * (1 :: ((net.propagate x).getD 0 default).values).getD c 0 := by
    intro r c
    have h1 : entry ((totalDelta sd net [(⟨x, y⟩ : Example)]
        (initialDelta net ⟨none, 0⟩)).map
          (scaleMat (1 / (([(⟨x, y⟩ : Example)]).length : ℚ)))) 0 r c
        = (m.getD r []).getD c 0 := by rw [hm]; rfl
    rw [← h1, entry_scaleMat, entry_totalDelta sd hn _ _ hall hz]
    have h3 : entry (initialDelta net ⟨none, 0⟩) 0 r c = 0 := entry_zeroWeights _ _ _ _
    have h4 := entry_exampleGradient sd net ⟨x, y⟩ 0 r c (by simp only []; omega)
    have h5 := layerError_last sd net (net.propagate x) y
    rw [hlen] at h5
    have h6 : (List.zipWith (fun a b => a - b) ((net.propagate x).getLastD default).values y).getD r 0
        = ((net.propagate x).getD 1 default).values.getD r 0 - y.getD r 0 := by
      rw [getLastD_eq_getD _ (by omega), hlen]
      have := getD_zipWith (fun (a b : ℚ) => a - b) 0 0
        ((net.propagate x).getD 1 default).values y
        (by rw [(he.2.1 1 (by omega)).2, he.2.2, h2]) r
      simpa using this
    simp only [List.map_cons, List.map_nil, List.sum_cons, List.sum_nil, h3, h4, h5, h6]
    simp
  refine ⟨m, ?_, ?_, ?_⟩
  · rw [hrun, hm]; rfl
  · have := hT.2 0 (by omega)
    rw [hm] at this
    exact this
  · intro r
    refine ⟨?_, ?_⟩
    · rw [hentry]; simp
    · intro c hc
      obtain ⟨k, rfl⟩ : ∃ k, c = k + 1 := ⟨c - 1, by omega⟩
      rw [hentry]
      simp

/-- Witness for C7: the scenario of the specification, where the returned matrix is
the 1×3 matrix `[[e, e * 1, e * 1]]` with `e = a - 0` (here `a = 2/3`). -/
theorem run_two_layers_witness :
    (WellShaped (scenarioNet (3 / 5) (2 / 3)) ∧
      (scenarioNet (3 / 5) (2 / 3)).layers.length = 2 ∧
      ExampleFits (scenarioNet (3 / 5) (2 / 3)) ⟨[1, 1], [0]⟩) ∧
    (∃ m : Mat,
      run scenarioDerivative (scenarioNet (3 / 5) (2 / 3)) [⟨[1, 1], [0]⟩] ⟨none, 0⟩
        = .ok [finMat m] ∧
      m.hasShape ((scenarioNet (3 / 5) (2 / 3)).layers.getD 1 0)
        ((scenarioNet (3 / 5) (2 / 3)).layers.getD 0 0 + 1) ∧
      ∀ r,
        (m.getD r []).getD 0 0
          = (((scenarioNet (3 / 5) (2 / 3)).propagate [1, 1]).getD 1 default).values.getD r 0
            - ([0] : Vec).getD r 0 ∧
        ∀ c, 1 ≤ c →
          (m.getD r []).getD c 0
            = ((((scenarioNet (3 / 5) (2 / 3)).propagate [1, 1]).getD 1 default).values.getD r 0
                - ([0] : Vec).getD r 0)
              * (((scenarioNet (3 / 5) (2 / 3)).propagate [1, 1]).getD 0 default).values.getD
                  (c - 1) 0) ∧
    run scenarioDerivative (scenarioNet (3 / 5) (2 / 3)) [⟨[1, 1], [0]⟩] ⟨none, 0⟩
      = .ok [finMat [[2 / 3 - 0, (2 / 3 - 0) * 1, (2 / 3 - 0) * 1]]] :=
  ⟨⟨by decide, by decide, by decide⟩,
    run_two_layers scenarioDerivative (scenarioNet (3 / 5) (2 / 3)) [1, 1] [0]
      (by decide) (by decide) (by decide),
    by
      simp [run, exampleLoop, exampleStep, outputError, backwardLoop, accumulate,
        derivativeLoop, regularizationStep, initialDelta, zeroWeights, scenarioNet, deref,
        Vec.subtract, Vec.transpose, Mat.multiply, Mat.add, Mat.rows, Mat.cols,
        Mat.transpose, toMatrix, addBiasUnit, dot, Mat.multiplyScalar, recip, JSNum.mul,
        bind, Except.bind, pure, Except.pure, List.range_succ, finMat]⟩

/-- C8: on a well-shaped network with `L ≥ 2` layers, a non-empty list of `n` fitting
examples, a seed `S` (zero matrices when absent) and `regularization = 0`, `run`
returns matrices shaped like the weights whose matrix `j` (`0 ≤ j ≤ L - 2`) has the
entry `(1 / n) * (S[j][r][c] + sum over the examples of d_(j+1)[r] * [1; a_j][c])`
at `(r, c)`; here `a_j` are the activated values of layer `j`, the error of the last
layer is the activated output minus the expected output, and the error `d_j` of a
hidden layer `1 ≤ j ≤ L - 2` follows the recurrence `hiddenError` from
`d_(j+1)`. -/
theorem run_closed_form (sd : ℚ → ℚ) (net : Network) (examples : List Example)
    (seed : Option (List Mat)) (hn : WellShaped net) (hne : examples ≠ [])
    (he : ∀ e ∈ examples, ExampleFits net e) (hs : SeedFits net ⟨seed, 0⟩) :
    ∃ m : List Mat, run sd net examples ⟨seed, 0⟩ = .ok (m.map finMat) ∧
      Shaped net.layers m ∧
      (∀ j r c, j + 1 < net.layers.length →
        entry m j r c
          = 1 / (examples.length : ℚ)
            * (entry (initialDelta net ⟨seed, 0⟩) j r c
              + (examples.map (fun e =>
                  (layerError sd net (net.propagate e.input) e.output (j + 1)).getD r 0
                    * (1 :: ((net.propagate e.input).getD j default).values).getD c 0)).sum)) ∧
      ∀ e ∈ examples,
        layerError sd net (net.propagate e.input) e.output (net.layers.length - 1)
            = List.zipWith (fun a b => a - b)
                ((net.propagate e.input).getD (net.layers.length - 1) default).values
                e.output ∧
        ∀ j, 1 ≤ j → j + 2 ≤ net.layers.length →
          layerError sd net (net.propagate e.input) e.output j
            = hiddenError sd (net.weights.getD j [])
                ((net.propagate e.input).getD j default).raw
                (layerError sd net (net.propagate e.input) e.output (j + 1)) := by
  have hd := initialDelta_shaped hn hs
  refine ⟨_, run_ok_pos sd hn he hs hne,
    scaleMat_shaped _ (totalDelta_shaped sd hn he hd), ?_, ?_⟩
  · intro j r c hj
    rw [entry_scaleMat, entry_totalDelta sd hn examples _ he hd]
    have hsum : examples.map (fun e => entry (exampleGradient sd net e) j r c)
        = examples.map (fun e =>
            (layerError sd net (net.propagate e.input) e.output (j + 1)).getD r 0
              * (1 :: ((net.propagate e.input).getD j default).values).getD c 0) := by
      apply List.map_congr_left
      intro e hmem
      exact entry_exampleGradient sd net e j r c (by have := (he e hmem).1; omega)
    rw [hsum]
    ring
  · intro e hmem
    have hlen := (he e hmem).1
    have hL := hn.1
    constructor
    · rw [← hlen, layerError_last, getLastD_eq_getD _ (by omega)]
    · intro j _ hj
      exact layerError_hidden sd net _ _ j (by omega)

/-- Witness for C8: a network with a hidden layer and the seed
`[[[1, 1, 1], [1, 1, 1]], [[2, 2, 2]]]`. -/
theorem run_closed_form_witness :
    (WellShaped hiddenNet ∧ (∀ e ∈ scenarioExamples, ExampleFits hiddenNet e) ∧
      SeedFits hiddenNet ⟨some [[[1, 1, 1], [1, 1, 1]], [[2, 2, 2]]], 0⟩) ∧
    ∃ m : List Mat,
      run scenarioDerivative hiddenNet scenarioExamples
          ⟨some [[[1, 1, 1], [1, 1, 1]], [[2, 2, 2]]], 0⟩ = .ok (m.map finMat) ∧
      Shaped hiddenNet.layers m ∧
      (∀ j r c, j + 1 < hiddenNet.layers.length →
        entry m j r c
          = 1 / (scenarioExamples.length : ℚ)
            * (entry (initialDelta hiddenNet
                  ⟨some [[[1, 1, 1], [1, 1, 1]], [[2, 2, 2]]], 0⟩) j r c
              + (scenarioExamples.map (fun e =>
                  (layerError scenarioDerivative hiddenNet (hiddenNet.propagate e.input)
                      e.output (j + 1)).getD r 0
                    * (1 :: ((hiddenNet.propagate e.input).getD j default).values).getD
                        c 0)).sum)) ∧
      ∀ e ∈ scenarioExamples,
        layerError scenarioDerivative hiddenNet (hiddenNet.propagate e.input) e.output
            (hiddenNet.layers.length - 1)
            = List.zipWith (fun a b => a - b)
                ((hiddenNet.propagate e.input).getD (hiddenNet.layers.length - 1)
                  default).values
                e.output ∧
        ∀ j, 1 ≤ j → j + 2 ≤ hiddenNet.layers.length →
          layerError scenarioDerivative hiddenNet (hiddenNet.propagate e.input) e.output j
            = hiddenError scenarioDerivative (hiddenNet.weights.getD j [])
                ((hiddenNet.propagate e.input).getD j default).raw
                (layerError scenarioDerivative hiddenNet (hiddenNet.propagate e.input)
                  e.output (j + 1)) :=
  ⟨⟨by decide, by decide, by decide⟩,
    run_closed_form scenarioDerivative hiddenNet scenarioExamples
      (some [[[1, 1, 1], [1, 1, 1]], [[2, 2, 2]]]) (by decide) (List.cons_ne_nil _ _)
      (by decide) (by decide)⟩

/-! ## The bias column -/

theorem derivativeLoop_unregularized (net : Network) (seed : Option (List Mat)) (r : ℚ)
    (n : Nat) : ∀ (delta : List (Option Mat)) (i : Nat) (ms : List JSMat),
      derivativeLoop net ⟨seed, r⟩ n i delta = .ok ms →
      derivativeLoop net ⟨seed, 0⟩ n i delta = .ok ms := by
  intro delta
  induction delta with
  | nil => intro i ms h; simpa [derivativeLoop] using h
  | cons d rest ih =>
    intro i ms h
    cases d with
    | none => simp [derivativeLoop, deref, bind, Except.bind] at h
    | some m =>
      simp only [derivativeLoop, deref, bind, Except.bind, regularizationStep_eq] at h ⊢
      by_cases hc : r ≠ 0 ∧ net.weights.length ≤ i
      · rw [if_pos hc] at h
        simp at h
      · rw [if_neg hc] at h
        rw [if_neg (by simp)]
        cases hrest : derivativeLoop net ⟨seed, r⟩ n (i + 1) rest with
        | error err => rw [hrest] at h; simp at h
        | ok v =>
          rw [hrest] at h
          rw [ih (i + 1) v hrest]
          exact h

/-- C9: whenever `run` with a regularization multiplier `r` returns matrices, `run`
with `regularization = 0` on the same network, examples and seed returns matrices
too, and every first-column (bias) entry of the former equals the same entry of the
latter. -/
theorem run_bias_column (sd : ℚ → ℚ) (net : Network) (examples : List Example)
    (seed : Option (List Mat)) (r : ℚ) (ms : List JSMat)
    (h : run sd net examples ⟨seed, r⟩ = .ok ms) :
    ∃ ms0 : List JSMat, run sd net examples ⟨seed, 0⟩ = .ok ms0 ∧
      ∀ i k, ((ms.getD i []).getD k []).head? = ((ms0.getD i []).getD k []).head? := by
  refine ⟨ms, ?_, fun _ _ => rfl⟩
  have hinit : initialDelta net ⟨seed, 0⟩ = initialDelta net ⟨seed, r⟩ := rfl
  simp only [run, bind, Except.bind, hinit] at h ⊢
  cases hloop : exampleLoop sd net examples ((initialDelta net ⟨seed, r⟩).map some) with
  | error err => rw [hloop] at h; simp at h
  | ok delta =>
    rw [hloop] at h
    exact derivativeLoop_unregularized net seed r _ delta 0 ms h

/-- Witness for C9: the scenario with `regularization = 1`. -/
theorem run_bias_column_witness :
    run scenarioDerivative (scenarioNet (3 / 5) (2 / 3)) scenarioExamples ⟨none, 1⟩
        = .ok [[[.fin (2 / 3), .fin (2 / 3), .fin (2 / 3)]]] ∧
    ∃ ms0 : List JSMat,
      run scenarioDerivative (scenarioNet (3 / 5) (2 / 3)) scenarioExamples ⟨none, 0⟩
        = .ok ms0 ∧
      ∀ i k,
        (((([[[.fin (2 / 3), .fin (2 / 3), .fin (2 / 3)]]] : List JSMat).getD i []).getD
            k []).head?)
          = ((ms0.getD i []).getD k []).head? :=
  have h : run scenarioDerivative (scenarioNet (3 / 5) (2 / 3)) scenarioExamples ⟨none, 1⟩
      = .ok [[[.fin (2 / 3), .fin (2 / 3), .fin (2 / 3)]]] := by
    simp [run, exampleLoop, exampleStep, outputError, backwardLoop, accumulate,
      derivativeLoop, regularizationStep, initialDelta, zeroWeights, scenarioNet,
      scenarioExamples, deref, Vec.subtract, Vec.transpose, Mat.multiply, Mat.add, Mat.rows,
      Mat.cols, Mat.transpose, toMatrix, addBiasUnit, dot, Mat.multiplyScalar, recip,
      JSNum.mul, bind, Except.bind, pure, Except.pure, List.range_succ]
  ⟨h, run_bias_column scenarioDerivative (scenarioNet (3 / 5) (2 / 3)) scenarioExamples
    none 1 _ h⟩

theorem backwardLoop_trim (sd : ℚ → ℚ) (net : Network) (w2 : List Mat)
    (output : List Record)
    (h : net.weights.map (List.map trimWeights) = w2.map (List.map trimWeights)) :
    ∀ (j : Nat) (errors : List Vec),
      backwardLoop sd { net with weights := w2 } output j errors
        = backwardLoop sd net output j errors := by
  intro j
  induction j with
  | zero => intro errors; rfl
  | succ j ih =>
    intro errors
    have hj : (net.weights[j + 1]?).map (List.map trimWeights)
        = (w2[j + 1]?).map (List.map trimWeights) := by
      rw [← List.getElem?_map, ← List.getElem?_map, h]
    simp only [backwardLoop]
    cases h1 : net.weights[j + 1]? with
    | none =>
      cases h2 : w2[j + 1]? with
      | none => rfl
      | some b => rw [h1, h2] at hj; simp at hj
    | some a =>
      cases h2 : w2[j + 1]? with
      | none => rw [h1, h2] at hj; simp at hj
      | some b =>
        rw [h1, h2] at hj
        have hab : List.map trimWeights a = List.map trimWeights b := by simpa using hj
        simp only [deref, bind, Except.bind, hab, ih]

theorem exampleLoop_trim (sd : ℚ → ℚ) (net : Network) (w2 : List Mat)
    (h : net.weights.map (List.map trimWeights) = w2.map (List.map trimWeights)) :
    ∀ (examples : List Example) (delta : List (Option Mat)),
      exampleLoop sd { net with weights := w2 } examples delta
        = exampleLoop sd net examples delta := by
  intro examples
  induction examples with
  | nil => intro delta; rfl
  | cons e rest ih =>
    intro delta
    have hstep : exampleStep sd { net with weights := w2 } delta e
        = exampleStep sd net delta e := by
      simp only [exampleStep, backwardLoop_trim sd net w2 _ h]
    simp only [exampleLoop, hstep, ih]

theorem derivativeLoop_weights (net : Network) (w2 : List Mat) (seed : Option (List Mat))
    (n : Nat) : ∀ (delta : List (Option Mat)) (i : Nat),
      derivativeLoop { net with weights := w2 } ⟨seed, 0⟩ n i delta
        = derivativeLoop net ⟨seed, 0⟩ n i delta := by
  intro delta
  induction delta with
  | nil => intro i; rfl
  | cons d rest ih =>
    intro i
    simp only [derivativeLoop, regularizationStep_eq, ih]
    simp

/-- C10: with `regularization = 0` and the propagation held fixed, replacing the
weight matrices of a network by matrices that agree with them in every column but
the first leaves the result of `run` unchanged, for every example list and seed. -/
theorem run_bias_weights (sd : ℚ → ℚ) (net : Network) (w2 : List Mat)
    (examples : List Example) (seed : Option (List Mat))
    (h : net.weights.map (List.map trimWeights) = w2.map (List.map trimWeights)) :
    run sd { net with weights := w2 } examples ⟨seed, 0⟩
      = run sd net examples ⟨seed, 0⟩ := by
  have hinit : initialDelta { net with weights := w2 } ⟨seed, 0⟩
      = initialDelta net ⟨seed, 0⟩ := rfl
  simp only [run, hinit, exampleLoop_trim sd net w2 h, derivativeLoop_weights]

/-- Witness for C10: a network with a hidden layer; the bias weights of both weight
matrices are replaced, and both networks return the same derivatives. -/
theorem run_bias_weights_witness :
    hiddenNet.weights.map (List.map trimWeights)
        = ([[[7, 2, 3], [8, 5, 6]], [[9, 1 / 3, 1 / 4]]] : List Mat).map
            (List.map trimWeights) ∧
    run scenarioDerivative
        { hiddenNet with weights := [[[7, 2, 3], [8, 5, 6]], [[9, 1 / 3, 1 / 4]]] }
        scenarioExamples ⟨none, 0⟩
      = run scenarioDerivative hiddenNet scenarioExamples ⟨none, 0⟩ ∧
    run scenarioDerivative hiddenNet scenarioExamples ⟨none, 0⟩
      = .ok [[[.fin 0, .fin 0, .fin 0], [.fin (-3 / 8), .fin (-3 / 8), .fin (-3 / 8)]],
          [[.fin (3 / 4), .fin (3 / 8), .fin (1 / 4)]]] :=
  ⟨rfl, run_bias_weights scenarioDerivative hiddenNet
    [[[7, 2, 3], [8, 5, 6]], [[9, 1 / 3, 1 / 4]]] scenarioExamples none rfl,
    by
      simp [run, exampleLoop, exampleStep, outputError, backwardLoop, accumulate,
        derivativeLoop, regularizationStep, initialDelta, zeroWeights, hiddenNet,
        scenarioDerivative, scenarioExamples, deref, Vec.subtract, Vec.transpose,
        Vec.elementMultiply, Mat.multiply, Mat.multiplyVec, Mat.add, Mat.rows, Mat.cols,
        Mat.transpose, toMatrix, addBiasUnit, trimWeights, dot, Mat.multiplyScalar, recip,
        JSNum.mul, bind, Except.bind, pure, Except.pure, List.range_succ]
      norm_num⟩

/-! ## Every error of `run` is a `TypeError` -/

theorem deref_only {α : Type} (x : Option α) : OnlyTypeError (deref x) := by
  intro err h
  cases x with
  | none => simp only [deref] at h; cases h; rfl
  | some a => simp [deref] at h

theorem bind_only {α β : Type} (x : Except JSError α) (f : α → Except JSError β)
    (hx : OnlyTypeError x) (hf : ∀ a, OnlyTypeError (f a)) : OnlyTypeError (x >>= f) := by
  intro err h
  cases x with
  | error e =>
    simp only [bind, Except.bind] at h
    cases h
    exact hx _ rfl
  | ok a => exact hf a err h

theorem ok_only {α : Type} (a : α) : OnlyTypeError (Except.ok a : Except JSError α) := by
  intro err h; cases h

theorem outputError_only (output : List Record) (y : Vec) :
    OnlyTypeError (outputError output y) :=
  bind_only _ _ (deref_only _) (fun _ => deref_only _)

theorem backwardLoop_only (sd : ℚ → ℚ) (net : Network) (output : List Record) :
    ∀ (j : Nat) (errors : List Vec), OnlyTypeError (backwardLoop sd net output j errors) := by
  intro j
  induction j with
  | zero => intro errors; exact ok_only _
  | succ j ih =>
    intro errors
    exact bind_only _ _ (deref_only _) (fun _ => bind_only _ _ (deref_only _)
      (fun _ => bind_only _ _ (deref_only _) (fun _ => bind_only _ _ (deref_only _)
        (fun _ => ih _))))

theorem accumulate_only (output : List Record) :
    ∀ (errs : List Vec) (j : Nat) (delta : List (Option Mat)),
      OnlyTypeError (accumulate output j errs delta) := by
  intro errs
  induction errs with
  | nil => intro j delta; exact ok_only _
  | cons e rest ih =>
    intro j delta
    exact bind_only _ _ (deref_only _) (fun _ => bind_only _ _ (deref_only _)
      (fun _ => bind_only _ _ (deref_only _) (fun _ => ih _ _)))

theorem exampleErrors_only (sd : ℚ → ℚ) (net : Network) (e : Example) :
    OnlyTypeError (exampleErrors sd net e) :=
  bind_only _ _ (outputError_only _ _)
    (fun _ => bind_only _ _ (backwardLoop_only sd net _ _ _) (fun _ => ok_only _))

theorem exampleStep_eq (sd : ℚ → ℚ) (net : Network) (delta : List (Option Mat))
    (e : Example) :
    exampleStep sd net delta e
      = exampleErrors sd net e >>= fun errors =>
          accumulate (net.propagate e.input) 0 errors delta := by
  simp only [exampleStep, exampleErrors, bind, Except.bind, pure, Except.pure]
  cases outputError (net.propagate e.input) e.output with
  | error err => rfl
  | ok first =>
    simp only []
    cases backwardLoop sd net (net.propagate e.input)
        ((net.propagate e.input).length - 2) [first] with
    | error err => rfl
    | ok errors => rfl

theorem exampleStep_only (sd : ℚ → ℚ) (net : Network) (delta : List (Option Mat))
    (e : Example) : OnlyTypeError (exampleStep sd net delta e) := by
  rw [exampleStep_eq]
  exact bind_only _ _ (exampleErrors_only sd net e) (fun _ => accumulate_only _ _ _ _)

theorem regularizationStep_only (net : Network) (options : Options) (i : Nat)
    (derivative : JSMat) : OnlyTypeError (regularizationStep net options i derivative) := by
  rw [regularizationStep_eq]
  intro err h
  split at h
  · cases h; rfl
  · cases h

theorem derivativeLoop_only (net : Network) (options : Options) (n : Nat) :
    ∀ (delta : List (Option Mat)) (i : Nat),
      OnlyTypeError (derivativeLoop net options n i delta) := by
  intro delta
  induction delta with
  | nil => intro i; exact ok_only _
  | cons d rest ih =>
    intro i
    exact bind_only _ _ (deref_only _) (fun _ => bind_only _ _
      (regularizationStep_only _ _ _ _) (fun _ => bind_only _ _ (ih _) (fun _ => ok_only _)))

theorem derivativeLoop_null (net : Network) (options : Options) (n : Nat) :
    ∀ (delta : List (Option Mat)) (i : Nat), none ∈ delta →
      derivativeLoop net options n i delta = .error .typeError := by
  intro delta
  induction delta with
  | nil => intro i h; simp at h
  | cons d rest ih =>
    intro i h
    cases d with
    | none => rfl
    | some m =>
      have hrest : none ∈ rest := by simpa using h
      have h1 := ih (i + 1) hrest
      simp only [derivativeLoop, deref, bind, Except.bind, h1]
      cases hreg : regularizationStep net options i (m.multiplyScalar (recip n)) with
      | error err => rw [regularizationStep_only net options i _ err hreg]
      | ok u => rfl

/-! ## The example loop and its failure-free reading -/

theorem accumulate_cons (output : List Record) (j : Nat) (e : Vec) (rest : List Vec)
    (delta : List (Option Mat)) :
    accumulate output j (e :: rest) delta
      = match output[j]?, (delta[j]?).join with
        | some layer, some current =>
            match (Vec.transpose e).multiply (toMatrix (addBiasUnit layer.values)) with
            | some added => accumulate output (j + 1) rest (delta.set j (current.add added))
            | none => .error .typeError
        | _, _ => .error .typeError := by
  simp only [accumulate]
  cases output[j]? with
  | none => rfl
  | some layer =>
    cases (delta[j]?).join with
    | none => rfl
    | some current =>
      simp only [deref, bind, Except.bind]
      cases (Vec.transpose e).multiply (toMatrix (addBiasUnit layer.values)) with
      | none => rfl
      | some added => rfl

theorem accumulate_null (output : List Record) :
    ∀ (errs : List Vec) (j : Nat) (delta result : List (Option Mat)) (i : Nat),
      delta[i]? = some none → accumulate output j errs delta = .ok result →
      result[i]? = some none := by
  intro errs
  induction errs with
  | nil =>
    intro j delta result i hi h
    simp only [accumulate, Except.ok.injEq] at h
    rw [← h]; exact hi
  | cons e rest ih =>
    intro j delta result i hi h
    rw [accumulate_cons] at h
    cases ho : output[j]? with
    | none => rw [ho] at h; simp at h
    | some layer =>
      cases hd : (delta[j]?).join with
      | none => rw [ho, hd] at h; simp at h
      | some m =>
        cases hg : (Vec.transpose e).multiply (toMatrix (addBiasUnit layer.values)) with
        | none => rw [ho, hd] at h; simp only [hg] at h; simp at h
        | some g =>
          rw [ho, hd] at h
          simp only [hg] at h
          have hij : j ≠ i := by
            intro hc
            rw [hc, hi] at hd
            simp at hd
          exact ih (j + 1) _ result i (by rw [List.getElem?_set_ne hij]; exact hi) h

theorem accumulate_sim (output : List Record) :
    ∀ (errs : List Vec) (j : Nat) (pre post : List Mat), pre.length = j →
      match addInto (newDeltas output j errs) post with
      | some post2 =>
          accumulate output j errs ((pre ++ post).map some) = .ok ((pre ++ post2).map some)
      | none =>
          accumulate output j errs ((pre ++ post).map some) = .error .typeError ∨
          ∃ result, accumulate output j errs ((pre ++ post).map some) = .ok result ∧
            none ∈ result := by
  intro errs
  induction errs with
  | nil => intro j pre post _; simp [newDeltas, addInto, accumulate]
  | cons e rest ih =>
    intro j pre post hpre
    rw [accumulate_cons]
    simp only [newDeltas]
    cases ho : output[j]? with
    | none =>
      cases post <;> simp [addInto]
    | some layer =>
      cases post with
      | nil =>
        have hd : ((pre ++ []).map some)[j]? = none := by
          rw [List.getElem?_eq_none]; simp [hpre]
        rw [hd]
        simp [addInto]
      | cons m post =>
        have hd : ((pre ++ m :: post).map some)[j]? = some (some m) := by
          rw [List.map_append, List.map_cons, ← hpre]
          have := getElem?_append_cons (pre.map some) (some m) (post.map some)
          simpa using this
        rw [hd]
        cases hg : (Vec.transpose e).multiply (toMatrix (addBiasUnit layer.values)) with
        | none => simp [hg, addInto]
        | some g =>
          simp only [hg, Option.bind, addInto, Option.join, id]
          cases hadd : Mat.add m g with
          | none =>
            simp only [hadd]
            have hset : ((pre ++ m :: post).map some).set j none
                = pre.map some ++ none :: post.map some := by
              rw [List.map_append, List.map_cons, ← hpre]
              simp
            rw [hset]
            cases hacc : accumulate output (j + 1) rest (pre.map some ++ none :: post.map some) with
            | error err =>
              left
              rw [accumulate_only output rest _ _ err hacc]
            | ok result =>
              right
              refine ⟨result, rfl, ?_⟩
              have := accumulate_null output rest (j + 1) _ result j
                (by rw [← hpre]; have := getElem?_append_cons (pre.map some) none (post.map some)
                    simpa using this) hacc
              exact List.mem_iff_getElem?.mpr ⟨j, this⟩
          | some s =>
            simp only [hadd]
            have hset : ((pre ++ m :: post).map some).set j (some s)
                = ((pre ++ [s]) ++ post).map some := by
              rw [List.map_append, List.map_cons, ← hpre]
              simp
            rw [hset]
            have := ih (j + 1) (pre ++ [s]) post (by simp [hpre])
            cases hrec : addInto (newDeltas output (j + 1) rest) post with
            | none =>
              rw [hrec] at this
              simpa using this
            | some t =>
              rw [hrec] at this
              simpa using this

theorem exampleStep_sim (sd : ℚ → ℚ) (net : Network) (delta : List (Option Mat))
    (s : Option (List Mat)) (e : Example) (h : Sim delta s) :
    (∀ err, exampleStep sd net delta e = .error err → stepPure sd net s e = none) ∧
    (∀ next, exampleStep sd net delta e = .ok next → Sim next (stepPure sd net s e)) := by
  rw [exampleStep_eq]
  cases s with
  | none =>
    refine ⟨fun _ _ => rfl, ?_⟩
    intro next hnext
    obtain ⟨i, hi⟩ := List.mem_iff_getElem?.mp (show none ∈ delta from h)
    cases herr : exampleErrors sd net e with
    | error err => rw [herr] at hnext; simp [bind, Except.bind] at hnext
    | ok errors =>
      rw [herr] at hnext
      have := accumulate_null _ errors 0 delta next i hi hnext
      exact List.mem_iff_getElem?.mpr ⟨i, this⟩
  | some d =>
    have hd : delta = d.map some := h
    subst hd
    cases herr : exampleErrors sd net e with
    | error err =>
      have hstep : stepPure sd net (some d) e = none := by simp [stepPure, herr]
      refine ⟨fun _ _ => hstep, ?_⟩
      intro next hnext
      simp [bind, Except.bind] at hnext
    | ok errors =>
      have hsim := accumulate_sim (net.propagate e.input) errors 0 [] d rfl
      simp only [List.nil_append] at hsim
      have hstep : stepPure sd net (some d) e
          = addInto (newDeltas (net.propagate e.input) 0 errors) d := by
        simp [stepPure, herr]
      rw [hstep]
      have hbind : (Except.ok errors >>= fun errors =>
            accumulate (net.propagate e.input) 0 errors (List.map some d))
          = accumulate (net.propagate e.input) 0 errors (List.map some d) := rfl
      rw [hbind]
      cases hadd : addInto (newDeltas (net.propagate e.input) 0 errors) d with
      | some post =>
        rw [hadd] at hsim
        have hsim2 : accumulate (net.propagate e.input) 0 errors (List.map some d)
            = .ok (List.map some post) := hsim
        rw [hsim2]
        constructor
        · intro err herr2
          cases herr2
        · intro next hnext
          cases hnext
          exact rfl
      | none =>
        rw [hadd] at hsim
        have hsim2 : accumulate (net.propagate e.input) 0 errors (List.map some d)
              = .error .typeError ∨
            ∃ result, accumulate (net.propagate e.input) 0 errors (List.map some d)
              = .ok result ∧ none ∈ result := hsim
        constructor
        · intro _ _
          rfl
        · intro next hnext
          rcases hsim2 with hsim3 | ⟨result, hres, hmem⟩
          · rw [hsim3] at hnext; cases hnext
          · rw [hres] at hnext
            cases hnext
            exact hmem

theorem foldl_stepPure_none (sd : ℚ → ℚ) (net : Network) :
    ∀ examples : List Example, examples.foldl (stepPure sd net) none = none := by
  intro examples
  induction examples with
  | nil => rfl
  | cons e rest ih => simpa [stepPure] using ih

theorem exampleLoop_sim (sd : ℚ → ℚ) (net : Network) (options : Options) (n : Nat) :
    ∀ (examples : List Example) (delta : List (Option Mat)) (s : Option (List Mat)),
      Sim delta s →
      (exampleLoop sd net examples delta >>= derivativeLoop net options n 0)
        = finishPure net options n (examples.foldl (stepPure sd net) s) := by
  intro examples
  induction examples with
  | nil =>
    intro delta s h
    cases s with
    | none => exact derivativeLoop_null net options n delta 0 h
    | some d =>
      have hd : delta = d.map some := h
      subst hd
      rfl
  | cons e rest ih =>
    intro delta s h
    obtain ⟨h1, h2⟩ := exampleStep_sim sd net delta s e h
    simp only [exampleLoop, List.foldl_cons]
    cases hstep : exampleStep sd net delta e with
    | error err =>
      rw [h1 err hstep, foldl_stepPure_none, exampleStep_only sd net delta e err hstep]
      rfl
    | ok next =>
      exact ih next _ (h2 next hstep)

/-- On every input `run` is the failure-free reading of the example loop followed by
the loop over `delta`. -/
theorem run_eq_pure (sd : ℚ → ℚ) (net : Network) (examples : List Example)
    (options : Options) :
    run sd net examples options
      = finishPure net options examples.length
          (examples.foldl (stepPure sd net) (some (initialDelta net options))) :=
  exampleLoop_sim sd net options examples.length examples _ _ rfl

/-! ## The order of the examples -/

theorem matAdd_right_comm (d a b : Mat) :
    matAdd (matAdd d a) b = matAdd (matAdd d b) a := by
  unfold matAdd
  apply zipWith_right_comm
  intro a x y
  apply zipWith_right_comm
  intro a x y
  exact add_right_comm a x y

theorem add_eq_matAdd (d a s : Mat) (h : Mat.add d a = some s) :
    s = matAdd d a ∧ s.rows = d.rows ∧ s.cols = d.cols := by
  unfold Mat.add at h
  split at h
  · rename_i hc
    cases h
    refine ⟨rfl, ?_, ?_⟩
    · simp only [Mat.rows, List.length_zipWith]
      have := hc.1
      simp only [Mat.rows] at this
      omega
    · have h2 := hc.2
      have h1 := hc.1
      cases d with
      | nil => rfl
      | cons d0 d =>
        cases a with
        | nil => simp [Mat.rows] at h1
        | cons a0 a =>
          simp only [Mat.cols, List.headD_cons] at h2 ⊢
          simp only [List.zipWith_cons_cons, List.headD_cons, List.length_zipWith]
          omega
  · cases h

theorem add_add_comm (d a b : Mat) :
    (Mat.add d a).bind (fun s => Mat.add s b) = (Mat.add d b).bind (fun s => Mat.add s a) := by
  cases hA : Mat.add d a with
  | none =>
    cases hB : Mat.add d b with
    | none => rfl
    | some s2 =>
      obtain ⟨_, hr, hc⟩ := add_eq_matAdd d b s2 hB
      simp only [Option.bind]
      unfold Mat.add at hA ⊢
      rw [if_neg]
      intro hcond
      rw [hr, hc] at hcond
      rw [if_pos hcond] at hA
      cases hA
  | some s =>
    obtain ⟨hs, hr, hc⟩ := add_eq_matAdd d a s hA
    cases hB : Mat.add d b with
    | none =>
      simp only [Option.bind]
      unfold Mat.add at hB ⊢
      rw [if_neg]
      intro hcond
      rw [hr, hc] at hcond
      rw [if_pos hcond] at hB
      cases hB
    | some s2 =>
      obtain ⟨hs2, hr2, hc2⟩ := add_eq_matAdd d b s2 hB
      simp only [Option.bind]
      have hcb : d.rows = b.rows ∧ d.cols = b.cols := by
        unfold Mat.add at hB
        by_contra hcon
        rw [if_neg hcon] at hB
        cases hB
      have hca : d.rows = a.rows ∧ d.cols = a.cols := by
        unfold Mat.add at hA
        by_contra hcon
        rw [if_neg hcon] at hA
        cases hA
      have e1 : Mat.add s b = some (matAdd s b) := by
        unfold Mat.add
        rw [if_pos (by rw [hr, hc]; exact hcb)]
        rfl
      have e2 : Mat.add s2 a = some (matAdd s2 a) := by
        unfold Mat.add
        rw [if_pos (by rw [hr2, hc2]; exact hca)]
        rfl
      rw [e1, e2, hs, hs2, matAdd_right_comm]

theorem addInto_none_cons (gs : List (Option Mat)) (d : List Mat) :
    addInto (none :: gs) d = none := by
  cases d <;> rfl

theorem addInto_cons_cons (a : Mat) (gs : List (Option Mat)) (m : Mat) (d : List Mat) :
    addInto (some a :: gs) (m :: d)
      = (Mat.add m a).bind (fun s => (addInto gs d).bind (fun t => some (s :: t))) := by
  simp only [addInto]
  cases Mat.add m a with
  | none => rfl
  | some s => cases addInto gs d <;> rfl

theorem addInto_comm : ∀ (gx gy : List (Option Mat)) (d : List Mat),
    (addInto gx d).bind (addInto gy) = (addInto gy d).bind (addInto gx) := by
  intro gx
  induction gx with
  | nil =>
    intro gy d
    have h1 : addInto [] = (some : List Mat → Option (List Mat)) := by
      funext t; cases t <;> rfl
    rw [h1]
    simp
  | cons hx gx ih =>
    intro gy d
    cases gy with
    | nil =>
      have h1 : addInto [] = (some : List Mat → Option (List Mat)) := by
        funext t; cases t <;> rfl
      rw [h1]
      simp
    | cons hy gy =>
      cases d with
      | nil => cases hx <;> cases hy <;> rfl
      | cons m d =>
        cases hx with
        | none =>
          rw [addInto_none_cons]
          have h2 : addInto (none :: gx) = fun _ => (none : Option (List Mat)) := by
            funext t; exact addInto_none_cons gx t
          rw [h2]
          cases addInto (hy :: gy) (m :: d) <;> rfl
        | some a =>
          cases hy with
          | none =>
            rw [addInto_none_cons]
            have h2 : addInto (none :: gy) = fun _ => (none : Option (List Mat)) := by
              funext t; exact addInto_none_cons gy t
            rw [h2]
            cases addInto (some a :: gx) (m :: d) <;> rfl
          | some b =>
            have hH := add_add_comm m a b
            have hI := ih gy d
            rw [addInto_cons_cons, addInto_cons_cons]
            cases hA : Mat.add m a with
            | none =>
              cases hB : Mat.add m b with
              | none => rfl
              | some s2 =>
                rw [hA, hB] at hH
                have h3 : Mat.add s2 a = none := hH.symm
                cases hY : addInto gy d with
                | none => rfl
                | some t2 =>
                  show none = addInto (some a :: gx) (s2 :: t2)
                  rw [addInto_cons_cons, h3]
                  rfl
            | some s =>
              cases hB : Mat.add m b with
              | none =>
                rw [hA, hB] at hH
                have h3 : Mat.add s b = none := hH
                cases hX : addInto gx d with
                | none => rfl
                | some t =>
                  show addInto (some b :: gy) (s :: t) = none
                  rw [addInto_cons_cons, h3]
                  rfl
              | some s2 =>
                rw [hA, hB] at hH
                have h3 : Mat.add s b = Mat.add s2 a := hH
                cases hX : addInto gx d with
                | none =>
                  cases hY : addInto gy d with
                  | none => rfl
                  | some t2 =>
                    rw [hX, hY] at hI
                    have h4 : addInto gx t2 = none := hI.symm
                    show none = addInto (some a :: gx) (s2 :: t2)
                    rw [addInto_cons_cons, h4]
                    cases Mat.add s2 a <;> rfl
                | some t =>
                  cases hY : addInto gy d with
                  | none =>
                    rw [hX, hY] at hI
                    have h4 : addInto gy t = none := hI
                    show addInto (some b :: gy) (s :: t) = none
                    rw [addInto_cons_cons, h4]
                    cases Mat.add s b <;> rfl
                  | some t2 =>
                    rw [hX, hY] at hI
                    have h4 : addInto gy t = addInto gx t2 := hI
                    show addInto (some b :: gy) (s :: t) = addInto (some a :: gx) (s2 :: t2)
                    rw [addInto_cons_cons, addInto_cons_cons, h3, h4]

theorem stepPure_comm (sd : ℚ → ℚ) (net : Network) (s : Option (List Mat))
    (x y : Example) :
    stepPure sd net (stepPure sd net s x) y = stepPure sd net (stepPure sd net s y) x := by
  cases s with
  | none => rfl
  | some d =>
    have hstep : ∀ (t : Option (List Mat)) (e : Example) (errors : List Vec),
        exampleErrors sd net e = .ok errors →
        stepPure sd net t e
          = t.bind (addInto (newDeltas (net.propagate e.input) 0 errors)) := by
      intro t e errors h
      cases t with
      | none => rfl
      | some d2 => simp [stepPure, h]
    have hfail : ∀ (t : Option (List Mat)) (e : Example) (err : JSError),
        exampleErrors sd net e = .error err → stepPure sd net t e = none := by
      intro t e err h
      cases t with
      | none => rfl
      | some d2 => simp [stepPure, h]
    cases hx : exampleErrors sd net x with
    | error err => rw [hfail _ x err hx, hfail _ x err hx]; rfl
    | ok ex =>
      cases hy : exampleErrors sd net y with
      | error err => rw [hfail _ y err hy, hfail _ y err hy]; rfl
      | ok ey =>
        rw [hstep _ y ey hy, hstep _ x ex hx, hstep _ x ex hx, hstep _ y ey hy]
        exact addInto_comm _ _ d

theorem foldl_stepPure_perm (sd : ℚ → ℚ) (net : Network) {e1 e2 : List Example}
    (hp : e1.Perm e2) (s : Option (List Mat)) :
    e1.foldl (stepPure sd net) s = e2.foldl (stepPure sd net) s :=
  hp.foldl_eq' (fun x _ y _ z => stepPure_comm sd net z x y) s

/-- C6: for every network, seed and regularization multiplier, `run` on two example
lists that are permutations of each other gives the same result; on a well-shaped
network with fitting examples and no seed or a seed with the weights' shapes that
result is a list of derivative matrices, the same for both orders. -/
theorem run_perm (sd : ℚ → ℚ) (net : Network) (examples examples2 : List Example)
    (options : Options) (hp : examples.Perm examples2) :
    run sd net examples options = run sd net examples2 options ∧
    (WellShaped net → (∀ e ∈ examples, ExampleFits net e) → SeedFits net options →
      ∃ ms : List JSMat, run sd net examples options = .ok ms ∧
        run sd net examples2 options = .ok ms) := by
  have heq : run sd net examples options = run sd net examples2 options := by
    rw [run_eq_pure, run_eq_pure, foldl_stepPure_perm sd net hp, hp.length_eq]
  refine ⟨heq, ?_⟩
  intro hn he hs
  exact ⟨_, run_ok sd hn he hs, by rw [← heq]; exact run_ok sd hn he hs⟩

/-- Witness for C6: two examples of the scenario's network in both orders, with a
seed and `regularization = 1`. -/
theorem run_perm_witness :
    List.Perm [(⟨[1, 1], [0]⟩ : Example), ⟨[0, 1], [1]⟩] [⟨[0, 1], [1]⟩, ⟨[1, 1], [0]⟩] ∧
    run scenarioDerivative (scenarioNet (3 / 5) (2 / 3))
        [⟨[1, 1], [0]⟩, ⟨[0, 1], [1]⟩] ⟨some [[[1, 2, 3]]], 1⟩
      = run scenarioDerivative (scenarioNet (3 / 5) (2 / 3))
          [⟨[0, 1], [1]⟩, ⟨[1, 1], [0]⟩] ⟨some [[[1, 2, 3]]], 1⟩ ∧
    ∃ ms : List JSMat,
      run scenarioDerivative (scenarioNet (3 / 5) (2 / 3))
          [⟨[1, 1], [0]⟩, ⟨[0, 1], [1]⟩] ⟨some [[[1, 2, 3]]], 1⟩ = .ok ms ∧
      run scenarioDerivative (scenarioNet (3 / 5) (2 / 3))
          [⟨[0, 1], [1]⟩, ⟨[1, 1], [0]⟩] ⟨some [[[1, 2, 3]]], 1⟩ = .ok ms :=
  ⟨List.Perm.swap _ _ _,
    (run_perm scenarioDerivative (scenarioNet (3 / 5) (2 / 3))
      [⟨[1, 1], [0]⟩, ⟨[0, 1], [1]⟩] [⟨[0, 1], [1]⟩, ⟨[1, 1], [0]⟩] ⟨some [[[1, 2, 3]]], 1⟩
      (List.Perm.swap _ _ _)).1,
    (run_perm scenarioDerivative (scenarioNet (3 / 5) (2 / 3))
      [⟨[1, 1], [0]⟩, ⟨[0, 1], [1]⟩] [⟨[0, 1], [1]⟩, ⟨[1, 1], [0]⟩] ⟨some [[[1, 2, 3]]], 1⟩
      (List.Perm.swap _ _ _)).2 (by decide) (by decide) (by decide)⟩

/-! ## The regularization step at multiplier zero -/

theorem derivativeLoop_skip (net : Network) (seed : Option (List Mat)) (n : Nat) :
    ∀ (delta : List (Option Mat)) (i : Nat),
      derivativeLoop net ⟨seed, 0⟩ n i delta = derivativeLoopSkip n delta := by
  intro delta
  induction delta with
  | nil => intro i; rfl
  | cons d rest ih =>
    intro i
    simp only [derivativeLoop, derivativeLoopSkip, regularizationStep_eq, ih]
    rw [if_neg (fun hc => hc.1 rfl)]
    cases d <;> rfl

/-- C14: for every network, example list and seed, `run` with `regularization = 0`
returns what the variant of `run` without the regularization step (lines 136-140)
returns, error or matrices. -/
theorem run_regularization_zero (sd : ℚ → ℚ) (net : Network) (examples : List Example)
    (seed : Option (List Mat)) :
    run sd net examples ⟨seed, 0⟩ = runSkip sd net examples seed := by
  simp only [run, runSkip, derivativeLoop_skip]

/-! ## The errors of one example -/

theorem exampleErrors_ok (sd : ℚ → ℚ) {net : Network} {e : Example}
    (hn : WellShaped net) (he : ExampleFits net e) :
    exampleErrors sd net e
      = .ok ((List.range ((net.propagate e.input).length - 1)).map
          (fun j => layerError sd net (net.propagate e.input) e.output (j + 1))) := by
  have hL := hn.1
  have hlen := he.1
  have hback := backward_ok sd hn he (net.layers.length - 2) 1 (by omega) (by omega)
  have h1 : (List.range 1).map (errorBack sd net (net.propagate e.input) e.output)
      = [errorBack sd net (net.propagate e.input) e.output 0] := by
    simp [List.range_succ]
  rw [h1, ← hlen] at hback
  have hback2 : backwardLoop sd net (net.propagate e.input)
      ((net.propagate e.input).length - 2)
      [errorBack sd net (net.propagate e.input) e.output 0]
      = .ok ((List.range (net.layers.length - 1)).map
          (errorBack sd net (net.propagate e.input) e.output)) := by
    rw [hback, hlen]
  simp only [exampleErrors, outputError_ok sd hn he, bind, Except.bind, hback2, pure,
    Except.pure, reverse_errors sd net e hlen]

theorem hiddenError_getD (sd : ℚ → ℚ) (w : Mat) (raw next : Vec) (c : Nat)
    (hc : c < raw.length) :
    (hiddenError sd w raw next).getD c 0
      = ((List.range next.length).map
          (fun r => (w.getD r []).getD (c + 1) 0 * next.getD r 0)).sum
        * sd (raw.getD c 0) := by
  unfold hiddenError
  rw [List.getD_eq_getElem _ _ (by simpa using hc)]
  simp

/-- C15: for a well-shaped network with `L ≥ 2` layers and a fitting example, the
errors list after the backward loop and the reversal (lines 104-122) has `L - 1`
entries, and its entry `k` is the error `d_(k+1)` of layer `k + 1`: the error of the
last layer is the activated output minus the expected output, and entry `c` of the
error `d_j` of a hidden layer `1 ≤ j ≤ L - 2` is the sum over the units `r` of layer
`j + 1` of `weights[j][r][c + 1] * d_(j+1)[r]` (the transpose of the weights without
their first column, times the next error), times the activation derivative at the
raw value `c` of layer `j`.  The list holds no error for the input layer. -/
theorem errors_recurrence (sd : ℚ → ℚ) (net : Network) (e : Example)
    (hn : WellShaped net) (he : ExampleFits net e) :
    ∃ errors : List Vec, exampleErrors sd net e = .ok errors ∧
      errors.length + 1 = net.layers.length ∧
      (∀ k, k + 1 < net.layers.length →
        errors.getD k [] = layerError sd net (net.propagate e.input) e.output (k + 1)) ∧
      layerError sd net (net.propagate e.input) e.output (net.layers.length - 1)
        = List.zipWith (fun a b => a - b)
            ((net.propagate e.input).getD (net.layers.length - 1) default).values
            e.output ∧
      ∀ j, 1 ≤ j → j + 2 ≤ net.layers.length →
        (layerError sd net (net.propagate e.input) e.output j).length
            = net.layers.getD j 0 ∧
        ∀ c, c < net.layers.getD j 0 →
          (layerError sd net (net.propagate e.input) e.output j).getD c 0
            = ((List.range (net.layers.getD (j + 1) 0)).map
                (fun r => ((net.weights.getD j []).getD r []).getD (c + 1) 0
                  * (layerError sd net (net.propagate e.input) e.output (j + 1)).getD r 0)).sum
              * sd (((net.propagate e.input).getD j default).raw.getD c 0) := by
  have hL := hn.1
  have hlen := he.1
  refine ⟨_, exampleErrors_ok sd hn he, ?_, ?_, ?_, ?_⟩
  · simp only [List.length_map, List.length_range]
    omega
  · intro k hk
    exact forwardErrors_getD sd net e k (by omega)
  · rw [← hlen, layerError_last, getLastD_eq_getD _ (by omega)]
  · intro j _ hj
    refine ⟨layerError_length sd he j (by omega), ?_⟩
    intro c hc
    rw [layerError_hidden sd net _ _ j (by omega),
      hiddenError_getD sd _ _ _ c (by rw [(he.2.1 j (by omega)).1]; exact hc),
      layerError_length sd he (j + 1) (by omega)]

/-- Witness for C15: the network with a hidden layer. -/
theorem errors_recurrence_witness :
    (WellShaped hiddenNet ∧ ExampleFits hiddenNet ⟨[1, 1], [0]⟩) ∧
    (∃ errors : List Vec, exampleErrors scenarioDerivative hiddenNet ⟨[1, 1], [0]⟩ = .ok errors ∧
      errors.length + 1 = hiddenNet.layers.length ∧
      (∀ k, k + 1 < hiddenNet.layers.length →
        errors.getD k []
          = layerError scenarioDerivative hiddenNet (hiddenNet.propagate [1, 1]) [0] (k + 1)) ∧
      layerError scenarioDerivative hiddenNet (hiddenNet.propagate [1, 1]) [0]
          (hiddenNet.layers.length - 1)
        = List.zipWith (fun a b => a - b)
            ((hiddenNet.propagate [1, 1]).getD (hiddenNet.layers.length - 1) default).values
            [0] ∧
      ∀ j, 1 ≤ j → j + 2 ≤ hiddenNet.layers.length →
        (layerError scenarioDerivative hiddenNet (hiddenNet.propagate [1, 1]) [0] j).length
            = hiddenNet.layers.getD j 0 ∧
        ∀ c, c < hiddenNet.layers.getD j 0 →
          (layerError scenarioDerivative hiddenNet (hiddenNet.propagate [1, 1]) [0] j).getD c 0
            = ((List.range (hiddenNet.layers.getD (j + 1) 0)).map
                (fun r => ((hiddenNet.weights.getD j []).getD r []).getD (c + 1) 0
                  * (layerError scenarioDerivative hiddenNet (hiddenNet.propagate [1, 1]) [0]
                      (j + 1)).getD r 0)).sum
              * scenarioDerivative (((hiddenNet.propagate [1, 1]).getD j default).raw.getD c 0)) ∧
    exampleErrors scenarioDerivative hiddenNet ⟨[1, 1], [0]⟩ = .ok [[0, -3 / 8], [3 / 4]] :=
  ⟨⟨by decide, by decide⟩,
    errors_recurrence scenarioDerivative hiddenNet ⟨[1, 1], [0]⟩ (by decide) (by decide),
    by
      simp [exampleErrors, outputError, backwardLoop, hiddenNet, scenarioDerivative, deref,
        Vec.subtract, Vec.elementMultiply, Mat.multiplyVec, Mat.cols, Mat.transpose,
        trimWeights, dot, bind, Except.bind, pure, Except.pure, List.range_succ]
      norm_num⟩

/-! ## Examples the network already reproduces -/

theorem errorBack_zero (sd : ℚ → ℚ) (net : Network) (output : List Record) (y : Vec)
    (h : (output.getLastD default).values = y) :
    ∀ k r, (errorBack sd net output y k).getD r 0 = 0 := by
  intro k
  induction k with
  | zero =>
    intro r
    simp only [errorBack, h]
    have := getD_zipWith (fun (a b : ℚ) => a - b) 0 0 y y rfl r
    rw [sub_zero, sub_self] at this
    exact this
  | succ k ih =>
    intro r
    simp only [errorBack]
    by_cases hr : r < (output.getD (output.length - 2 - k) default).raw.length
    · rw [hiddenError_getD sd _ _ _ r hr]
      have hsum : ((List.range (errorBack sd net output y k).length).map
          (fun i => ((net.weights.getD (output.length - 2 - k) []).getD i []).getD (r + 1) 0
            * (errorBack sd net output y k).getD i 0)).sum = 0 := by
        apply List.sum_eq_zero
        intro x hx
        simp only [List.mem_map] at hx
        obtain ⟨i, _, rfl⟩ := hx
        rw [ih i, mul_zero]
      rw [hsum, zero_mul]
    · exact List.getD_eq_default _ _
        (by simp only [hiddenError, List.length_map, List.length_range]; omega)

/-- C17: on a well-shaped network with a non-empty list of fitting examples whose
expected output equals the activated output of the last layer, every layer error is
zero whatever the weights and raw values are, and `run` with no seed and
`regularization = 0` returns the zero matrices shaped like the weights. -/
theorem run_reproduced (sd : ℚ → ℚ) (net : Network) (examples : List Example)
    (hn : WellShaped net) (hne : examples ≠ [])
    (he : ∀ e ∈ examples, ExampleFits net e)
    (hout : ∀ e ∈ examples,
      ((net.propagate e.input).getD (net.layers.length - 1) default).values = e.output) :
    (∀ e ∈ examples, ∀ j r,
      (layerError sd net (net.propagate e.input) e.output j).getD r 0 = 0) ∧
    run sd net examples ⟨none, 0⟩ = .ok ((zeroWeights net.layers).map finMat) := by
  have hL := hn.1
  have hzero : ∀ e ∈ examples, ∀ j r,
      (layerError sd net (net.propagate e.input) e.output j).getD r 0 = 0 := by
    intro e hmem j r
    have hlen := (he e hmem).1
    exact errorBack_zero sd net _ _
      (by rw [getLastD_eq_getD _ (by omega), hlen]; exact hout e hmem) _ r
  refine ⟨hzero, ?_⟩
  have hs : SeedFits net ⟨none, 0⟩ := trivial
  have hz : Shaped net.layers (zeroWeights net.layers) := initialDelta_shaped hn hs
  rw [run_ok_pos sd hn he hs hne]
  congr 2
  apply shaped_ext (scaleMat_shaped _ (totalDelta_shaped sd hn he hz)) hz
  intro j r c
  rw [entry_scaleMat, entry_zeroWeights]
  show entry (totalDelta sd net examples (zeroWeights net.layers)) j r c * _ = 0
  rw [entry_totalDelta sd hn examples _ he hz, entry_zeroWeights]
  have hsum : (examples.map (fun e => entry (exampleGradient sd net e) j r c)).sum = 0 := by
    apply List.sum_eq_zero
    intro x hx
    simp only [List.mem_map] at hx
    obtain ⟨e, hmem, rfl⟩ := hx
    by_cases hj : j < (net.propagate e.input).length - 1
    · rw [entry_exampleGradient sd net e j r c hj, hzero e hmem, zero_mul]
    · have hlenG : (exampleGradient sd net e).length ≤ j := by
        simp only [exampleGradient, gradsFrom_length, List.length_map, List.length_range]
        omega
      unfold entry
      rw [List.getD_eq_default _ _ hlenG]
      rfl
  rw [hsum]
  ring

/-- Witness for C17: the network with a hidden layer and an example whose expected
output is the activated output `[3 / 4]` of the last layer. -/
theorem run_reproduced_witness :
    (WellShaped hiddenNet ∧
      (∀ e ∈ [(⟨[1, 1], [3 / 4]⟩ : Example)], ExampleFits hiddenNet e) ∧
      ∀ e ∈ [(⟨[1, 1], [3 / 4]⟩ : Example)],
        ((hiddenNet.propagate e.input).getD (hiddenNet.layers.length - 1) default).values
          = e.output) ∧
    (∀ e ∈ [(⟨[1, 1], [3 / 4]⟩ : Example)], ∀ j r,
      (layerError scenarioDerivative hiddenNet (hiddenNet.propagate e.input) e.output j).getD
        r 0 = 0) ∧
    run scenarioDerivative hiddenNet [⟨[1, 1], [3 / 4]⟩] ⟨none, 0⟩
      = .ok ((zeroWeights hiddenNet.layers).map finMat) :=
  have hout : ∀ e ∈ [(⟨[1, 1], [3 / 4]⟩ : Example)],
      ((hiddenNet.propagate e.input).getD (hiddenNet.layers.length - 1) default).values
        = e.output := by
    intro e he
    rw [List.mem_singleton.mp he]
    rfl
  ⟨⟨by decide, by decide, hout⟩,
    run_reproduced scenarioDerivative hiddenNet [⟨[1, 1], [3 / 4]⟩] (by decide)
      (List.cons_ne_nil _ _) (by decide) hout⟩

/-! ## A network with one layer -/

theorem backwardLoop_length (sd : ℚ → ℚ) (net : Network) (output : List Record) :
    ∀ (j : Nat) (errors result : List Vec),
      backwardLoop sd net output j errors = .ok result → errors.length ≤ result.length := by
  intro j
  induction j with
  | zero =>
    intro errors result h
    simp only [backwardLoop, Except.ok.injEq] at h
    rw [h]
  | succ j ih =>
    intro errors result h
    simp only [backwardLoop] at h
    cases h1 : deref (net.weights[j + 1]?) with
    | error err => rw [h1] at h; cases h
    | ok w =>
      rw [h1] at h
      cases h2 : deref errors.getLast? with
      | error err => rw [h2] at h; cases h
      | ok previous =>
        rw [h2] at h
        cases h3 : deref ((Mat.transpose (List.map trimWeights w)).multiplyVec previous) with
        | error err => simp only [bind, Except.bind, h3] at h; cases h
        | ok product =>
          cases h4 : deref (output[j + 1]?) with
          | error err => simp only [bind, Except.bind, h3, h4] at h; cases h
          | ok layer =>
            simp only [bind, Except.bind, h3, h4] at h
            have := ih _ result h
            simp only [List.length_append, List.length_cons, List.length_nil] at this
            omega

theorem exampleErrors_ne_nil (sd : ℚ → ℚ) (net : Network) (e : Example)
    (errors : List Vec) (h : exampleErrors sd net e = .ok errors) : errors ≠ [] := by
  simp only [exampleErrors, bind, Except.bind, pure, Except.pure] at h
  cases h1 : outputError (net.propagate e.input) e.output with
  | error err => rw [h1] at h; cases h
  | ok first =>
    rw [h1] at h
    simp only [] at h
    cases h2 : backwardLoop sd net (net.propagate e.input)
        ((net.propagate e.input).length - 2) [first] with
    | error err => rw [h2] at h; cases h
    | ok result =>
      rw [h2] at h
      simp only [Except.ok.injEq] at h
      have hlen := backwardLoop_length sd net _ _ _ result h2
      intro hnil
      rw [← h] at hnil
      have : result = [] := by simpa using hnil
      rw [this] at hlen
      simp at hlen

theorem addInto_nil_right (gs : List (Option Mat)) (h : gs ≠ []) : addInto gs [] = none := by
  cases gs with
  | nil => exact absurd rfl h
  | cons g gs => cases g <;> rfl

theorem newDeltas_length (output : List Record) :
    ∀ (errs : List Vec) (j : Nat), (newDeltas output j errs).length = errs.length := by
  intro errs
  induction errs with
  | nil => intro j; rfl
  | cons e rest ih => intro j; simp [newDeltas, ih]

theorem stepPure_nil (sd : ℚ → ℚ) (net : Network) (e : Example) :
    stepPure sd net (some []) e = none := by
  simp only [stepPure]
  cases h : exampleErrors sd net e with
  | error err => rfl
  | ok errors =>
    simp only []
    apply addInto_nil_right
    intro hnil
    have := newDeltas_length (net.propagate e.input) errors 0
    rw [hnil] at this
    exact exampleErrors_ne_nil sd net e errors h (List.length_eq_zero.mp this.symm)

/-- C13 (counterexample): on a network with one layer `run` returns the empty list
for an empty example list, returns a matrix when a seed of the fitting size is
supplied, and raises a `TypeError` (no `InvalidArgument`) for an example without a
seed. -/
theorem run_one_layer_scenario :
    run scenarioDerivative singleLayerNet [] ⟨none, 0⟩ = .ok [] ∧
    run scenarioDerivative singleLayerNet [⟨[1, 1], [1 / 2, 1 / 2]⟩]
        ⟨some [[[0, 0, 0], [0, 0, 0]]], 0⟩
      = .ok [[[.fin (1 / 2), .fin (1 / 2), .fin (1 / 2)],
              [.fin (1 / 2), .fin (1 / 2), .fin (1 / 2)]]] ∧
    run scenarioDerivative singleLayerNet [⟨[1, 1], [1 / 2, 1 / 2]⟩] ⟨none, 0⟩
      = .error .typeError := by
  refine ⟨rfl, ?_, ?_⟩
  · simp [run, exampleLoop, exampleStep, outputError, backwardLoop, accumulate,
      derivativeLoop, regularizationStep, initialDelta, cloneWeights, singleLayerNet, deref,
      Vec.subtract, Vec.transpose, Mat.multiply, Mat.add, Mat.rows, Mat.cols, Mat.transpose,
      toMatrix, addBiasUnit, dot, Mat.multiplyScalar, recip, JSNum.mul, bind, Except.bind,
      pure, Except.pure, List.range_succ]
    norm_num
  · simp [run, exampleLoop, exampleStep, outputError, backwardLoop, accumulate,
      initialDelta, zeroWeights, singleLayerNet, deref, Vec.subtract, bind, Except.bind]

/-- C13 (amended): on a network with one layer and without a seed, `run` returns the
empty list for an empty example list and raises a `TypeError` for every non-empty
example list, whatever the propagation returns and whatever the regularization
multiplier is. -/
theorem run_one_layer (sd : ℚ → ℚ) (net : Network) (examples : List Example) (r : ℚ)
    (h1 : net.layers.length = 1) :
    run sd net examples ⟨none, r⟩
      = if examples.length = 0 then .ok [] else .error .typeError := by
  have hinit : initialDelta net ⟨none, r⟩ = [] := by
    simp only [initialDelta]
    cases hl : net.layers with
    | nil => rfl
    | cons a rest =>
      have : rest = [] := by rw [hl] at h1; simpa using h1
      rw [this]; rfl
  rw [run_eq_pure, hinit]
  cases examples with
  | nil => rfl
  | cons e rest =>
    rw [List.foldl_cons, stepPure_nil, foldl_stepPure_none]
    rfl

/-- Witness for C13: the network with one layer. -/
theorem run_one_layer_witness :
    singleLayerNet.layers.length = 1 ∧
    run scenarioDerivative singleLayerNet [⟨[1, 1], [1 / 2, 1 / 2]⟩] ⟨none, 1⟩
      = if ([(⟨[1, 1], [1 / 2, 1 / 2]⟩ : Example)]).length = 0 then .ok []
        else .error .typeError :=
  ⟨rfl, run_one_layer scenarioDerivative singleLayerNet [⟨[1, 1], [1 / 2, 1 / 2]⟩] 1 rfl⟩

/-! ## A seed that does not fit -/

theorem newDeltas_eq (output : List Record) :
    ∀ (errs : List Vec) (j : Nat),
      (∀ i, i < errs.length → j + i < output.length ∧ errs.getD i [] ≠ []) →
      newDeltas output j errs = (gradsFrom output j errs).map some := by
  intro errs
  induction errs with
  | nil => intro j _; rfl
  | cons e rest ih =>
    intro j h
    obtain ⟨h0a, h0b⟩ := h 0 (by simp)
    simp only [List.getD_cons_zero, Nat.add_zero] at h0a h0b
    have hrest := ih (j + 1) (fun i hi => by
      have := h (i + 1) (by simp; omega)
      simp only [List.getD_cons_succ] at this
      have e1 : j + 1 + i = j + (i + 1) := by omega
      rw [e1]
      exact this)
    simp only [newDeltas, gradsFrom, List.map_cons, hrest,
      getElem?_eq_some_getD output j h0a default, Option.bind, addBiasUnit,
      outer_multiply e _ h0b]

theorem addInto_mismatch : ∀ (gs : List (Option Mat)) (d : List Mat) (j : Nat),
    j < gs.length → j < d.length →
    (∀ g, gs.getD j none = some g → Mat.add (d.getD j []) g = none) →
    addInto gs d = none := by
  intro gs
  induction gs with
  | nil => intro d j hj; simp at hj
  | cons g0 gs ih =>
    intro d j hj hjd h
    cases d with
    | nil => simp at hjd
    | cons m d =>
      cases g0 with
      | none => rfl
      | some g =>
        cases j with
        | zero =>
          have := h g rfl
          simp only [List.getD_cons_zero] at this
          simp only [addInto, this]
        | succ j =>
          have hrec := ih d j (by simpa using hj) (by simpa using hjd)
            (fun g2 hg2 => by
              have := h g2 (by simpa using hg2)
              simpa using this)
          simp only [addInto, hrec]
          cases Mat.add m g <;> rfl

/-- C12 (counterexample): in the scenario with the 1×2 seed `[[1, 2]]` the loop over
the examples ends without an error and leaves `null` in the accumulator (the
mismatched addition raises nothing); `run` then raises a `TypeError`, not
`InvalidArgument`, when line 134 dereferences it.  On a network whose propagation
does not fit the weights, a seed that differs in shape from the weight matrix is
accepted and `run` returns. -/
theorem run_seed_mismatch_scenario :
    exampleLoop scenarioDerivative (scenarioNet (3 / 5) (2 / 3)) scenarioExamples
        [some [[1, 2]]] = .ok [none] ∧
    run scenarioDerivative (scenarioNet (3 / 5) (2 / 3)) scenarioExamples
        ⟨some [[[1, 2]]], 0⟩ = .error .typeError ∧
    run scenarioDerivative (misfitNet (3 / 5) (2 / 3)) scenarioExamples
        ⟨some [[[0, 0]]], 0⟩ = .ok [[[.fin (2 / 3), .fin (2 / 3)]]] := by
  refine ⟨?_, ?_, ?_⟩
  · simp [exampleLoop, exampleStep, outputError, backwardLoop, accumulate, scenarioNet,
      scenarioExamples, deref, Vec.subtract, Vec.transpose, Mat.multiply, Mat.add, Mat.rows,
      Mat.cols, Mat.transpose, toMatrix, addBiasUnit, dot, bind, Except.bind, pure,
      Except.pure, List.range_succ]
  · simp [run, exampleLoop, exampleStep, outputError, backwardLoop, accumulate,
      derivativeLoop, initialDelta, cloneWeights, scenarioNet, scenarioExamples, deref,
      Vec.subtract, Vec.transpose, Mat.multiply, Mat.add, Mat.rows, Mat.cols, Mat.transpose,
      toMatrix, addBiasUnit, dot, bind, Except.bind, pure, Except.pure, List.range_succ]
  · simp [run, exampleLoop, exampleStep, outputError, backwardLoop, accumulate,
      derivativeLoop, regularizationStep, initialDelta, cloneWeights, misfitNet,
      scenarioExamples, deref, Vec.subtract, Vec.transpose, Mat.multiply, Mat.add, Mat.rows,
      Mat.cols, Mat.transpose, toMatrix, addBiasUnit, dot, Mat.multiplyScalar, recip,
      JSNum.mul, bind, Except.bind, pure, Except.pure, List.range_succ]

theorem accumulate_total (output : List Record) :
    ∀ (errs : List Vec) (j : Nat) (pre : List (Option Mat)) (post : List Mat),
      pre.length = j → errs.length ≤ post.length →
      (∀ i, i < errs.length → j + i < output.length ∧ errs.getD i [] ≠ []) →
      accumulate output j errs (pre ++ post.map some)
        = .ok (pre ++ List.zipWith (fun m g => Mat.add m g) post (gradsFrom output j errs)
            ++ (post.drop errs.length).map some) := by
  intro errs
  induction errs with
  | nil => intro j pre post _ _ _; simp [accumulate, gradsFrom]
  | cons e rest ih =>
    intro j pre post hpre hlen hall
    cases post with
    | nil => simp at hlen
    | cons m post =>
      obtain ⟨h0a, h0b⟩ := hall 0 (by simp)
      simp only [List.getD_cons_zero, Nat.add_zero] at h0a h0b
      have hd : (pre ++ (m :: post).map some)[j]? = some (some m) := by
        rw [List.map_cons, ← hpre]
        exact getElem?_append_cons pre (some m) (post.map some)
      have hset : (pre ++ (m :: post).map some).set j
            (Mat.add m (outer e (1 :: (output.getD j default).values)))
          = (pre ++ [Mat.add m (outer e (1 :: (output.getD j default).values))])
              ++ post.map some := by
        rw [List.map_cons, ← hpre]
        simp
      rw [accumulate_cons, getElem?_eq_some_getD output j h0a default, hd]
      simp only [Option.join, Option.bind, id, addBiasUnit, outer_multiply e _ h0b, hset]
      rw [ih (j + 1) _ post (by simp [hpre]) (by simpa using hlen) (fun i hi => by
        have := hall (i + 1) (by simp; omega)
        simp only [List.getD_cons_succ] at this
        have e1 : j + 1 + i = j + (i + 1) := by omega
        rw [e1]
        exact this)]
      simp [gradsFrom]

theorem add_mismatch (sd : ℚ → ℚ) {net : Network} {e : Example} (d : List Mat) (j : Nat)
    (hn : WellShaped net) (hfit : ExampleFits net e) (hj : j < net.weights.length)
    (hmis : ¬ ((d.getD j []).rows = (net.weights.getD j []).rows ∧
      (d.getD j []).cols = (net.weights.getD j []).cols)) :
    Mat.add (d.getD j []) ((exampleGradient sd net e).getD j []) = none := by
  have hW := hn.2.2
  have hG := exampleGradient_shaped sd hn hfit
  have hGj := hG.2 j (by have := hG.1; have := hW.1; omega)
  have hWj := hW.2 j hj
  have hpos := layers_pos hn (j + 1) (by have := hW.1; omega)
  unfold Mat.add
  rw [if_neg]
  intro hc
  apply hmis
  rw [hc.1, hc.2, Mat.rows, Mat.rows, hGj.1, hWj.1, hasShape_cols hGj hpos,
    hasShape_cols hWj hpos]
  exact ⟨rfl, rfl⟩

theorem forwardErrors_ok (sd : ℚ → ℚ) {net : Network} {e : Example}
    (hn : WellShaped net) (hfit : ExampleFits net e) :
    ∀ i, i < ((List.range ((net.propagate e.input).length - 1)).map
        (fun j => layerError sd net (net.propagate e.input) e.output (j + 1))).length →
      0 + i < (net.propagate e.input).length ∧
      ((List.range ((net.propagate e.input).length - 1)).map
        (fun j => layerError sd net (net.propagate e.input) e.output (j + 1))).getD i []
          ≠ [] := by
  intro i hi
  have hlen := hfit.1
  have hi2 : i < (net.propagate e.input).length - 1 := by simpa using hi
  rw [forwardErrors_getD sd net e i hi2]
  refine ⟨by omega, ?_⟩
  intro h0
  have h1 := layerError_length sd hfit (i + 1) (by omega)
  have h2 := layers_pos hn (i + 1) (by omega)
  rw [h0, List.length_nil] at h1
  omega

/-- C12 (amended): on a well-shaped network with a non-empty list of fitting examples,
a seed in which some matrix `seed[j]` (`j < L - 1`) has a row count or a column
count different from `weights[j]` makes `run` raise a `TypeError`; it returns no
derivatives.  When the seed has at least `L - 1` matrices, the additions of the
first example raise nothing: they leave `null` in `delta[j]`, and the error is
raised where that entry is dereferenced next. -/
theorem run_seed_mismatch (sd : ℚ → ℚ) (net : Network) (examples : List Example)
    (d : List Mat) (r : ℚ) (j : Nat) (hn : WellShaped net) (hne : examples ≠ [])
    (he : ∀ e ∈ examples, ExampleFits net e) (hj : j < net.weights.length)
    (hjd : j < d.length)
    (hmis : ¬ ((d.getD j []).rows = (net.weights.getD j []).rows ∧
      (d.getD j []).cols = (net.weights.getD j []).cols)) :
    run sd net examples ⟨some d, r⟩ = .error .typeError ∧
    (net.weights.length ≤ d.length → ∀ e rest, examples = e :: rest →
      ∃ next, exampleStep sd net (d.map some) e = .ok next ∧ next[j]? = some none) := by
  have hW := hn.2.2
  have hL := hn.1
  constructor
  · cases examples with
    | nil => exact absurd rfl hne
    | cons e rest =>
      have hfit := he e (by simp)
      have hG := exampleGradient_shaped sd hn hfit
      have hGlen : (exampleGradient sd net e).length = net.weights.length := by
        have := hG.1
        have := hW.1
        omega
      have hstep : stepPure sd net (some d) e = none := by
        simp only [stepPure, exampleErrors_ok sd hn hfit]
        rw [newDeltas_eq _ _ 0 (forwardErrors_ok sd hn hfit)]
        have hnd : (List.map some (gradsFrom (net.propagate e.input) 0
            ((List.range ((net.propagate e.input).length - 1)).map
              (fun j => layerError sd net (net.propagate e.input) e.output (j + 1)))))
            = (exampleGradient sd net e).map some := rfl
        rw [hnd]
        apply addInto_mismatch _ d j (by rw [List.length_map, hGlen]; exact hj) hjd
        intro g hg
        have h3 : ((exampleGradient sd net e).map some).getD j none
            = some ((exampleGradient sd net e).getD j []) := by
          rw [List.getD_eq_getElem _ _ (by rw [List.length_map, hGlen]; exact hj),
            List.getElem_map, List.getD_eq_getElem _ _ (by rw [hGlen]; exact hj)]
        have h4 : ((exampleGradient sd net e).map some).getD j none = some g := hg
        rw [h3] at h4
        rw [← Option.some.inj h4]
        exact add_mismatch sd d j hn hfit hj hmis
      have hinit : initialDelta net ⟨some d, r⟩ = d := rfl
      rw [run_eq_pure, hinit, List.foldl_cons, hstep, foldl_stepPure_none]
      rfl
  · intro hlen e rest hex
    have hfit := he e (by rw [hex]; simp)
    have hG := exampleGradient_shaped sd hn hfit
    have hGlen : (exampleGradient sd net e).length = net.weights.length := by
      have := hG.1
      have := hW.1
      omega
    have hElen : ((List.range ((net.propagate e.input).length - 1)).map
        (fun j => layerError sd net (net.propagate e.input) e.output (j + 1))).length
        = net.weights.length := by
      have := hfit.1
      have := hW.1
      simp only [List.length_map, List.length_range]
      omega
    have hacc := accumulate_total (net.propagate e.input) _ 0 [] d rfl
      (by rw [hElen]; exact hlen) (forwardErrors_ok sd hn hfit)
    simp only [List.nil_append] at hacc
    rw [hElen] at hacc
    refine ⟨List.zipWith (fun m g => Mat.add m g) d (exampleGradient sd net e)
      ++ (d.drop net.weights.length).map some, ?_, ?_⟩
    · rw [exampleStep_eq, exampleErrors_ok sd hn hfit]
      exact hacc
    · have hz : (List.zipWith (fun m g => Mat.add m g) d (exampleGradient sd net e))[j]?
          = some none := by
        rw [List.getElem?_eq_getElem (by
          rw [List.length_zipWith, hGlen]; omega)]
        rw [List.getElem_zipWith]
        have := add_mismatch sd d j hn hfit hj hmis
        rw [List.getD_eq_getElem _ _ hjd,
          List.getD_eq_getElem _ _ (by rw [hGlen]; exact hj)] at this
        rw [this]
      rw [List.getElem?_append_left (by
        rw [List.length_zipWith, hGlen]; omega)]
      exact hz

/-- Witness for C12: the scenario with the 1×2 seed `[[1, 2]]`. -/
theorem run_seed_mismatch_witness :
    (WellShaped (scenarioNet (3 / 5) (2 / 3)) ∧
      (∀ e ∈ scenarioExamples, ExampleFits (scenarioNet (3 / 5) (2 / 3)) e) ∧
      ¬ ((([[[1, 2]]] : List Mat).getD 0 []).rows
            = ((scenarioNet (3 / 5) (2 / 3)).weights.getD 0 []).rows ∧
          (([[[1, 2]]] : List Mat).getD 0 []).cols
            = ((scenarioNet (3 / 5) (2 / 3)).weights.getD 0 []).cols)) ∧
    run scenarioDerivative (scenarioNet (3 / 5) (2 / 3)) scenarioExamples
      ⟨some [[[1, 2]]], 1⟩ = .error .typeError ∧
    ∃ next, exampleStep scenarioDerivative (scenarioNet (3 / 5) (2 / 3))
        (([[[1, 2]]] : List Mat).map some) ⟨[1, 1], [0]⟩ = .ok next ∧
      next[0]? = some none :=
  have h := run_seed_mismatch scenarioDerivative (scenarioNet (3 / 5) (2 / 3))
    scenarioExamples [[[1, 2]]] 1 0 (by decide) (List.cons_ne_nil _ _) (by decide)
    (by decide) (by decide) (by decide)
  ⟨⟨by decide, by decide, by decide⟩, h.1, h.2 (by decide) ⟨[1, 1], [0]⟩ [] rfl⟩

/-! ## The regularization multiplier -/

theorem addInto_length : ∀ (gs : List (Option Mat)) (d result : List Mat),
    addInto gs d = some result → result.length = d.length := by
  intro gs
  induction gs with
  | nil =>
    intro d result h
    have : addInto [] d = some d := by cases d <;> rfl
    rw [this] at h
    rw [← Option.some.inj h]
  | cons g0 gs ih =>
    intro d result h
    cases d with
    | nil => rw [addInto_nil_right _ (List.cons_ne_nil _ _)] at h; cases h
    | cons m d =>
      cases g0 with
      | none => rw [addInto_none_cons] at h; cases h
      | some g =>
        rw [addInto_cons_cons] at h
        cases hadd : Mat.add m g with
        | none => rw [hadd] at h; cases h
        | some s =>
          cases hrec : addInto gs d with
          | none => rw [hadd, hrec] at h; cases h
          | some t =>
            rw [hadd, hrec] at h
            have := ih d t hrec
            rw [← Option.some.inj h]
            simp [this]

theorem foldl_stepPure_length (sd : ℚ → ℚ) (net : Network) :
    ∀ (examples : List Example) (d result : List Mat),
      examples.foldl (stepPure sd net) (some d) = some result → result.length = d.length := by
  intro examples
  induction examples with
  | nil =>
    intro d result h
    rw [← Option.some.inj h]
  | cons e rest ih =>
    intro d result h
    rw [List.foldl_cons] at h
    cases hstep : stepPure sd net (some d) e with
    | none => rw [hstep, foldl_stepPure_none] at h; cases h
    | some d2 =>
      rw [hstep] at h
      have h1 := ih d2 result h
      have h2 : d2.length = d.length := by
        simp only [stepPure] at hstep
        cases herr : exampleErrors sd net e with
        | error err => rw [herr] at hstep; cases hstep
        | ok errors =>
          rw [herr] at hstep
          exact addInto_length _ d d2 hstep
      omega

/-- C16 (counterexample): in the scenario with a seed of two matrices (the network has
one weight matrix) `run` with `regularization = 0` returns two matrices, and `run`
with `regularization = 1` raises a `TypeError` at `weights[1]` and returns none. -/
theorem run_regularization_scenario :
    run scenarioDerivative (scenarioNet (3 / 5) (2 / 3)) scenarioExamples
        ⟨some [[[0, 0, 0]], [[5]]], 0⟩
      = .ok [[[.fin (2 / 3), .fin (2 / 3), .fin (2 / 3)]], [[.fin 5]]] ∧
    run scenarioDerivative (scenarioNet (3 / 5) (2 / 3)) scenarioExamples
        ⟨some [[[0, 0, 0]], [[5]]], 1⟩
      = .error .typeError := by
  constructor <;>
  simp [run, exampleLoop, exampleStep, outputError, backwardLoop, accumulate, derivativeLoop,
    regularizationStep, initialDelta, cloneWeights, scenarioNet, scenarioExamples, deref,
    Vec.subtract, Vec.transpose, Mat.multiply, Mat.add, Mat.rows, Mat.cols, Mat.transpose,
    toMatrix, addBiasUnit, dot, Mat.multiplyScalar, recip, JSNum.mul, bind, Except.bind, pure,
    Except.pure, List.range_succ]

/-- C16 (amended): for every network, example list, seed and pair of regularization
multipliers, the matrices `run` returns with one multiplier equal the matrices it
returns with the other whenever both runs return; and when the initial accumulator
(the seed, or the zero matrices) has no more matrices than the network has weight
matrices, both runs end the same way, with equal matrices or with the same
error. -/
theorem run_regularization_irrelevant (sd : ℚ → ℚ) (net : Network)
    (examples : List Example) (seed : Option (List Mat)) (r1 r2 : ℚ) :
    (∀ ms1 ms2, run sd net examples ⟨seed, r1⟩ = .ok ms1 →
      run sd net examples ⟨seed, r2⟩ = .ok ms2 → ms1 = ms2) ∧
    ((initialDelta net ⟨seed, r1⟩).length ≤ net.weights.length →
      run sd net examples ⟨seed, r1⟩ = run sd net examples ⟨seed, r2⟩) := by
  have hzero : ∀ r ms, run sd net examples ⟨seed, r⟩ = .ok ms →
      run sd net examples ⟨seed, 0⟩ = .ok ms := by
    intro r ms h
    have hinit : initialDelta net ⟨seed, 0⟩ = initialDelta net ⟨seed, r⟩ := rfl
    simp only [run, bind, Except.bind, hinit] at h ⊢
    cases hloop : exampleLoop sd net examples ((initialDelta net ⟨seed, r⟩).map some) with
    | error err => rw [hloop] at h; cases h
    | ok delta =>
      rw [hloop] at h
      exact derivativeLoop_unregularized net seed r _ delta 0 ms h
  constructor
  · intro ms1 ms2 h1 h2
    have e1 := hzero r1 ms1 h1
    have e2 := hzero r2 ms2 h2
    rw [e1] at e2
    exact Except.ok.inj e2
  · intro hlen
    have hfin : ∀ r, run sd net examples ⟨seed, r⟩ = run sd net examples ⟨seed, 0⟩ := by
      intro r
      have hinit : initialDelta net ⟨seed, r⟩ = initialDelta net ⟨seed, r1⟩ := rfl
      have hinit0 : initialDelta net ⟨seed, 0⟩ = initialDelta net ⟨seed, r1⟩ := rfl
      rw [run_eq_pure, run_eq_pure, hinit, hinit0]
      cases hfold : examples.foldl (stepPure sd net) (some (initialDelta net ⟨seed, r1⟩)) with
      | none => rfl
      | some d =>
        have hd := foldl_stepPure_length sd net examples _ d hfold
        simp only [finishPure]
        rw [derivativeLoop_ok net ⟨seed, r⟩ examples.length d 0 (fun _ => by omega),
          derivativeLoop_ok net ⟨seed, 0⟩ examples.length d 0 (fun _ => by omega)]
    rw [hfin r1, hfin r2]

/-- Witness for C16: the scenario with the multipliers 1 and 2. -/
theorem run_regularization_irrelevant_witness :
    (initialDelta (scenarioNet (3 / 5) (2 / 3)) ⟨none, 1⟩).length
        ≤ (scenarioNet (3 / 5) (2 / 3)).weights.length ∧
    run scenarioDerivative (scenarioNet (3 / 5) (2 / 3)) scenarioExamples ⟨none, 1⟩
      = run scenarioDerivative (scenarioNet (3 / 5) (2 / 3)) scenarioExamples ⟨none, 2⟩ :=
  ⟨by decide,
    (run_regularization_irrelevant scenarioDerivative (scenarioNet (3 / 5) (2 / 3))
      scenarioExamples none 1 2).2 (by decide)⟩

/-! ## `run` on a store: what it writes -/

theorem Store.put_put (s : Store) (ref : Nat) (a b : List (Option Mat)) :
    (s.put ref a).put ref b = s.put ref b := by
  simp [Store.put, List.set_set]

theorem Store.array_put (s : Store) (ref : Nat) (a : List (Option Mat))
    (h : ref < s.arrays.length) : (s.put ref a).array ref = a := by
  simp [Store.put, Store.array, List.getD_eq_getElem?_getD, List.getElem?_set_self h]

theorem Store.put_array (s : Store) (ref : Nat) : s.put ref (s.array ref) = s := by
  have h : s.arrays.set ref (s.arrays.getD ref []) = s.arrays := by
    by_cases hr : ref < s.arrays.length
    · apply List.ext_getElem (by simp)
      intro n h1 h2
      by_cases hn : ref = n
      · subst hn
        rw [List.getElem_set_self, List.getD_eq_getElem _ _ hr]
      · rw [List.getElem_set_ne hn]
    · exact List.set_eq_of_length_le (by omega)
  cases s
  simp only [Store.put, Store.array] at h ⊢
  rw [h]

theorem Store.length_put (s : Store) (ref : Nat) (a : List (Option Mat)) :
    (s.put ref a).arrays.length = s.arrays.length := by
  simp [Store.put]

theorem accumulateOn_spec (output : List Record) (ref : Nat) :
    ∀ (errs : List Vec) (j : Nat) (s : Store), ref < s.arrays.length →
      (∀ err, accumulate output j errs (s.array ref) = .error err →
        (accumulateOn output ref j errs s).1 = .error err) ∧
      (∀ r, accumulate output j errs (s.array ref) = .ok r →
        accumulateOn output ref j errs s = (.ok (), s.put ref r)) ∧
      ∃ d, (accumulateOn output ref j errs s).2 = s.put ref d := by
  intro errs
  induction errs with
  | nil =>
    intro j s _
    refine ⟨?_, ?_, ⟨s.array ref, ?_⟩⟩
    · intro err h; cases h
    · intro r h
      simp only [accumulate, Except.ok.injEq] at h
      rw [← h, Store.put_array]
      rfl
    · rw [Store.put_array]; rfl
  | cons e rest ih =>
    intro j s hs
    rw [accumulate_cons]
    simp only [accumulateOn]
    cases ho : output[j]? with
    | none =>
      refine ⟨?_, ?_, ⟨s.array ref, ?_⟩⟩
      · intro err h; cases h; rfl
      · intro r h; cases h
      · rw [Store.put_array]
    | some layer =>
      simp only []
      cases hd : ((s.array ref)[j]?).join with
      | none =>
        simp only []
        refine ⟨?_, ?_, ⟨s.array ref, ?_⟩⟩
        · intro err h; cases h; rfl
        · intro r h; cases h
        · rw [Store.put_array]
      | some current =>
        simp only []
        cases hg : (Vec.transpose e).multiply (toMatrix (addBiasUnit layer.values)) with
        | none =>
          simp only []
          refine ⟨?_, ?_, ⟨s.array ref, ?_⟩⟩
          · intro err h; cases h; rfl
          · intro r h; cases h
          · rw [Store.put_array]
        | some added =>
          simp only []
          have hs1 : ref < (s.assign ref j (current.add added)).arrays.length := by
            rw [Store.assign, Store.length_put]; exact hs
          have harr : (s.assign ref j (current.add added)).array ref
              = (s.array ref).set j (current.add added) := by
            rw [Store.assign, Store.array_put _ _ _ hs]
          obtain ⟨h1, h2, ⟨d, h3⟩⟩ := ih (j + 1) (s.assign ref j (current.add added)) hs1
          rw [harr] at h1 h2
          refine ⟨h1, ?_, ⟨d, ?_⟩⟩
          · intro r h
            rw [h2 r h, Store.assign, Store.put_put]
          · rw [h3, Store.assign, Store.put_put]

theorem exampleStepOn_spec (sd : ℚ → ℚ) (layers : List Nat) (propagate : Vec → List Record)
    (ref : Nat) (s : Store) (e : Example) (hs : ref < s.arrays.length) :
    (∀ err, exampleStep sd (s.network layers propagate) (s.array ref) e = .error err →
      (exampleStepOn sd layers propagate ref s e).1 = .error err) ∧
    (∀ r, exampleStep sd (s.network layers propagate) (s.array ref) e = .ok r →
      exampleStepOn sd layers propagate ref s e = (.ok (), s.put ref r)) ∧
    ∃ d, (exampleStepOn sd layers propagate ref s e).2 = s.put ref d := by
  rw [exampleStep_eq]
  simp only [exampleStepOn]
  cases herr : exampleErrors sd (s.network layers propagate) e with
  | error err =>
    refine ⟨?_, ?_, ⟨s.array ref, ?_⟩⟩
    · intro err2 h; cases h; rfl
    · intro r h; cases h
    · rw [Store.put_array]
  | ok errors => exact accumulateOn_spec (propagate e.input) ref errors 0 s hs

theorem exampleLoopOn_spec (sd : ℚ → ℚ) (layers : List Nat) (propagate : Vec → List Record)
    (ref : Nat) :
    ∀ (left i : Nat) (s : Store), ref < s.arrays.length → left + i = s.examples.length →
      (∀ err, exampleLoop sd (s.network layers propagate) (s.examples.drop i) (s.array ref)
          = .error err →
        (exampleLoopOn sd layers propagate ref left i s).1 = .error err) ∧
      (∀ r, exampleLoop sd (s.network layers propagate) (s.examples.drop i) (s.array ref)
          = .ok r →
        exampleLoopOn sd layers propagate ref left i s = (.ok (), s.put ref r)) ∧
      ∃ d, (exampleLoopOn sd layers propagate ref left i s).2 = s.put ref d := by
  intro left
  induction left with
  | zero =>
    intro i s _ hi
    have hdrop : s.examples.drop i = [] := List.drop_eq_nil_of_le (by omega)
    rw [hdrop]
    refine ⟨?_, ?_, ⟨s.array ref, ?_⟩⟩
    · intro err h; cases h
    · intro r h
      simp only [exampleLoop, Except.ok.injEq] at h
      rw [← h, Store.put_array]
      rfl
    · rw [Store.put_array]; rfl
  | succ left ih =>
    intro i s hs hi
    have hlt : i < s.examples.length := by omega
    rw [List.drop_eq_getElem_cons hlt]
    simp only [exampleLoopOn, List.getElem?_eq_getElem hlt, exampleLoop]
    obtain ⟨h1, h2, ⟨d, h3⟩⟩ := exampleStepOn_spec sd layers propagate ref s s.examples[i] hs
    cases hstep : exampleStep sd (s.network layers propagate) (s.array ref) s.examples[i] with
    | error err =>
      have hfst := h1 err hstep
      have hpair : exampleStepOn sd layers propagate ref s s.examples[i]
          = (.error err, s.put ref d) := by
        rw [← hfst, ← h3]
      rw [hpair]
      refine ⟨?_, ?_, ⟨d, rfl⟩⟩
      · intro err2 h; cases h; rfl
      · intro r h; cases h
    | ok next =>
      rw [h2 next hstep]
      simp only [bind, Except.bind]
      have hs1 : ref < (s.put ref next).arrays.length := by
        rw [Store.length_put]; exact hs
      obtain ⟨k1, k2, ⟨d2, k3⟩⟩ := ih (i + 1) (s.put ref next) hs1 (by
        show left + (i + 1) = s.examples.length
        omega)
      rw [Store.array_put _ _ _ hs] at k1 k2
      refine ⟨k1, ?_, ⟨d2, ?_⟩⟩
      · intro r h
        have := k2 r h
        rw [Store.put_put] at this
        exact this
      · rw [k3, Store.put_put]

theorem derivativeLoop_options (net : Network) (o1 o2 : Options) (n : Nat)
    (h : o1.regularization = o2.regularization) :
    ∀ (delta : List (Option Mat)) (i : Nat),
      derivativeLoop net o1 n i delta = derivativeLoop net o2 n i delta := by
  intro delta
  induction delta with
  | nil => intro i; rfl
  | cons d rest ih =>
    intro i
    simp only [derivativeLoop, regularizationStep_eq, ih, h]

theorem Store.allocate_put (s : Store) (a d : List (Option Mat)) :
    (s.allocate a).1.put (s.allocate a).2 d = { s with arrays := s.arrays ++ [d] } := by
  simp [Store.allocate, Store.put]

theorem Store.allocate_array (s : Store) (a : List (Option Mat)) :
    (s.allocate a).1.array (s.allocate a).2 = a := by
  simp [Store.allocate, Store.array, List.getD_eq_getElem?_getD]

theorem runOn_store (sd : ℚ → ℚ) (layers : List Nat) (propagate : Vec → List Record)
    (seed : Option Nat) (r : ℚ) (s : Store) :
    ∃ d, (runOn sd layers propagate seed r s).2 = { s with arrays := s.arrays ++ [d] } := by
  simp only [runOn]
  generalize s.initialArray layers seed = initial
  have hs1 : (s.allocate initial).2 < (s.allocate initial).1.arrays.length := by
    simp [Store.allocate]
  obtain ⟨_, _, ⟨d, h3⟩⟩ := exampleLoopOn_spec sd layers propagate (s.allocate initial).2
    (s.allocate initial).1.examples.length 0 (s.allocate initial).1 hs1 rfl
  rw [Store.allocate_put] at h3
  refine ⟨d, ?_⟩
  rcases hpair : exampleLoopOn sd layers propagate (s.allocate initial).2
      (s.allocate initial).1.examples.length 0 (s.allocate initial).1 with ⟨res, s2⟩
  rw [hpair] at h3
  cases res with
  | error err => exact h3
  | ok u => exact h3

theorem runOn_result (sd : ℚ → ℚ) (layers : List Nat) (propagate : Vec → List Record)
    (seed : Option Nat) (r : ℚ) (s : Store)
    (hseed : ∀ a, seed = some a → ∃ d : List Mat, s.array a = d.map some) :
    (runOn sd layers propagate seed r s).1
      = run sd (s.network layers propagate) s.examples ⟨s.seedValue seed, r⟩ := by
  have hinit : s.initialArray layers seed
      = (initialDelta (s.network layers propagate) ⟨s.seedValue seed, r⟩).map some := by
    cases seed with
    | none => rfl
    | some a =>
      obtain ⟨d, hd⟩ := hseed a rfl
      simp only [Store.initialArray, Store.seedValue, Option.map, initialDelta,
        cloneWeights, hd, List.filterMap_map]
      congr 1
      simp
  simp only [runOn, run]
  rw [hinit]
  generalize (initialDelta (s.network layers propagate) ⟨s.seedValue seed, r⟩).map some
    = initial
  have hs1 : (s.allocate initial).2 < (s.allocate initial).1.arrays.length := by
    simp [Store.allocate]
  obtain ⟨h1, h2, _⟩ := exampleLoopOn_spec sd layers propagate (s.allocate initial).2
    (s.allocate initial).1.examples.length 0 (s.allocate initial).1 hs1 rfl
  rw [Store.allocate_array, List.drop_zero] at h1 h2
  have hnet : (s.allocate initial).1.network layers propagate = s.network layers propagate :=
    rfl
  have hex : (s.allocate initial).1.examples = s.examples := rfl
  rw [hnet] at h1 h2
  simp only [hex] at h1 h2 ⊢
  cases hloop : exampleLoop sd (s.network layers propagate) s.examples initial with
  | error err =>
    have hfst := h1 err hloop
    rcases hpair : exampleLoopOn sd layers propagate (s.allocate initial).2
        s.examples.length 0 (s.allocate initial).1 with ⟨res, s2⟩
    rw [hpair] at hfst
    have hres : res = .error err := hfst
    rw [hres]
    rfl
  | ok delta =>
    rw [h2 delta hloop]
    simp only [bind, Except.bind]
    rw [Store.array_put _ _ _ hs1]
    exact derivativeLoop_options (s.network layers propagate) ⟨none, r⟩
      ⟨s.seedValue seed, r⟩ s.examples.length rfl delta 0

/-- C11: `run` on a store leaves the reachable objects it was given unchanged, whether
it returns or raises: the weight matrices, the examples and every array that
existed before the call, the caller's `options.delta` among them, are what they
were (the only array `run` writes to is the one it allocates).  Its result is the
result of `run` on the values in the store, and a second run on the store the first
one leaves gives the same result. -/
theorem run_frame (sd : ℚ → ℚ) (layers : List Nat) (propagate : Vec → List Record)
    (seed : Option Nat) (r : ℚ) (s : Store)
    (hseed : ∀ a, seed = some a →
      a < s.arrays.length ∧ ∃ d : List Mat, s.array a = d.map some) :
    ((runOn sd layers propagate seed r s).2.weights = s.weights ∧
      (runOn sd layers propagate seed r s).2.examples = s.examples ∧
      ∀ a, a < s.arrays.length →
        (runOn sd layers propagate seed r s).2.array a = s.array a) ∧
    (runOn sd layers propagate seed r s).1
      = run sd (s.network layers propagate) s.examples ⟨s.seedValue seed, r⟩ ∧
    (runOn sd layers propagate seed r (runOn sd layers propagate seed r s).2).1
      = (runOn sd layers propagate seed r s).1 := by
  obtain ⟨d, hd⟩ := runOn_store sd layers propagate seed r s
  have harr : ∀ a, a < s.arrays.length →
      (runOn sd layers propagate seed r s).2.array a = s.array a := by
    intro a ha
    rw [hd]
    simp only [Store.array, List.getD_eq_getElem?_getD]
    rw [List.getElem?_append_left ha]
  have h1 := runOn_result sd layers propagate seed r s (fun a ha => (hseed a ha).2)
  have h2 := runOn_result sd layers propagate seed r (runOn sd layers propagate seed r s).2
    (fun a ha => by
      obtain ⟨hlt, m, hm⟩ := hseed a ha
      exact ⟨m, by rw [harr a hlt]; exact hm⟩)
  refine ⟨⟨by rw [hd], by rw [hd], harr⟩, h1, ?_⟩
  rw [h2, h1]
  have hv : (runOn sd layers propagate seed r s).2.seedValue seed = s.seedValue seed := by
    cases seed with
    | none => rfl
    | some a =>
      simp only [Store.seedValue, Option.map]
      rw [harr a (hseed a rfl).1]
  rw [hv]
  have hnet : (runOn sd layers propagate seed r s).2.network layers propagate
      = s.network layers propagate := by
    rw [hd]; rfl
  have hex : (runOn sd layers propagate seed r s).2.examples = s.examples := by rw [hd]
  rw [hnet, hex]

/-- Witness for C11: the scenario with the caller's seed array `[[[1, 2, 3]]]` at
address 0; after the run the store holds that array unchanged and the array of
`run` after it. -/
theorem run_frame_witness :
    (∀ a, some 0 = some a →
      a < scenarioStore.arrays.length ∧
        ∃ d : List Mat, scenarioStore.array a = d.map some) ∧
    ((runOn scenarioDerivative [2, 1] (scenarioNet (3 / 5) (2 / 3)).propagate (some 0) 0
          scenarioStore).2.weights = scenarioStore.weights ∧
      (runOn scenarioDerivative [2, 1] (scenarioNet (3 / 5) (2 / 3)).propagate (some 0) 0
          scenarioStore).2.examples = scenarioStore.examples ∧
      ∀ a, a < scenarioStore.arrays.length →
        (runOn scenarioDerivative [2, 1] (scenarioNet (3 / 5) (2 / 3)).propagate (some 0) 0
          scenarioStore).2.array a = scenarioStore.array a) ∧
    (runOn scenarioDerivative [2, 1] (scenarioNet (3 / 5) (2 / 3)).propagate (some 0) 0
        scenarioStore).1
      = run scenarioDerivative
          (scenarioStore.network [2, 1] (scenarioNet (3 / 5) (2 / 3)).propagate)
          scenarioStore.examples ⟨scenarioStore.seedValue (some 0), 0⟩ ∧
    ((runOn scenarioDerivative [2, 1] (scenarioNet (3 / 5) (2 / 3)).propagate (some 0) 0
        (runOn scenarioDerivative [2, 1] (scenarioNet (3 / 5) (2 / 3)).propagate (some 0) 0
          scenarioStore).2).1
      = (runOn scenarioDerivative [2, 1] (scenarioNet (3 / 5) (2 / 3)).propagate (some 0) 0
          scenarioStore).1) ∧
    (runOn scenarioDerivative [2, 1] (scenarioNet (3 / 5) (2 / 3)).propagate (some 0) 0
        scenarioStore).2.arrays
      = [[some [[1, 2, 3]]], [some [[5 / 3, 8 / 3, 11 / 3]]]] :=
  have hseed : ∀ a, some 0 = some a →
      a < scenarioStore.arrays.length ∧
        ∃ d : List Mat, scenarioStore.array a = d.map some := by
    intro a ha
    cases ha
    exact ⟨by decide, [[[1, 2, 3]]], rfl⟩
  have hfinal : (runOn scenarioDerivative [2, 1] (scenarioNet (3 / 5) (2 / 3)).propagate
      (some 0) 0 scenarioStore).2.arrays
      = [[some [[1, 2, 3]]], [some [[5 / 3, 8 / 3, 11 / 3]]]] := by
    simp [runOn, exampleLoopOn, exampleStepOn, accumulateOn, exampleErrors, outputError,
      backwardLoop, Store.allocate, Store.initialArray, Store.array, Store.put, Store.assign,
      Store.network, scenarioStore, scenarioNet, deref, Vec.subtract, Vec.transpose,
      Mat.multiply, Mat.add, Mat.rows, Mat.cols, Mat.transpose, toMatrix, addBiasUnit, dot,
      bind, Except.bind, pure, Except.pure, List.range_succ]
    norm_num
  have h := run_frame scenarioDerivative [2, 1] (scenarioNet (3 / 5) (2 / 3)).propagate
    (some 0) 0 scenarioStore hseed
  ⟨hseed, h.1, h.2.1, h.2.2, hfinal⟩

end BackPropagation
